import Mathlib

/-!
Verification of the GM-PlayArea release-pipeline utilities.

This file gives a shallow embedding, in Lean 4, of the Python sources of the
repository (issue-ID extraction, rich-text flattening, Jira detail fetching and
updating, repository-state diffing, and table generation), together with
theorems settling the frozen claims C1 to C10 about those sources.

Modelling conventions:
- Python strings are Lean `String`s; character-level work is done on `String.data`
  (a `List Char`).  All character classes involved (the issue-ID alphabet, word
  characters, digits) are ASCII, so ASCII-level `Char` predicates model the
  Python behaviour on the inputs in question.
- Python dictionaries parsed from JSON are association lists in insertion order
  (`List (String × key)`), Python's JSON values are the inductive `JsonVal`.
- A Python function that can raise is embedded with an `Option`/`Except` result;
  `none`/`.error` means the call raises.
- HTTP traffic is embedded explicitly: the response the remote side would give
  is an input (`HttpResponse`), and functions with side effects return the list
  of requests/calls they issue, so that "performs no network access" is a
  statement about the returned call list.
- Loops whose termination is by consumption of the input are written with an
  explicit fuel argument initialised to the input length, keeping every
  definition kernel-computable.
-/

/-! ## Character and string utilities shared by the scripts -/

/-- Word characters of the regex `\b` boundary (`\w` = letters, digits, underscore;
the inputs scanned are ASCII). -/
def isWordChar (c : Char) : Bool := c.isAlphanum || c == '_'

/-- Code-point lexicographic order on character lists: Python's `<` on strings. -/
def lexLt : List Char → List Char → Bool
  | [], [] => false
  | [], _ :: _ => true
  | _ :: _, [] => false
  | a :: as, b :: bs =>
      if a.toNat < b.toNat then true else if b.toNat < a.toNat then false else lexLt as bs

/-- Python's `<=` on strings. -/
def strLe (a b : String) : Bool := !lexLt b.data a.data

/-- Insert into a sorted list, keeping earlier elements first on ties
(the stability of Python's sort). -/
def insertLe {α : Type} (le : α → α → Bool) (a : α) : List α → List α
  | [] => [a]
  | b :: bs => if le a b then a :: b :: bs else b :: insertLe le a bs

/-- Stable insertion sort: the model of Python's `sorted`. -/
def sortLe {α : Type} (le : α → α → Bool) : List α → List α
  | [] => []
  | a :: as => insertLe le a (sortLe le as)

/-- Python's `sorted` on a list of strings. -/
def pySorted (xs : List String) : List String := sortLe strLe xs

/-- Python's `str.lower` (ASCII). -/
def pyLower (s : String) : String := String.mk (s.data.map Char.toLower)

/-- Worker for `pyTitle`: the boolean records whether the previous character
was a letter (Python's `str.title` word-start rule, ASCII). -/
def titleAux : Bool → List Char → List Char
  | _, [] => []
  | prevAlpha, c :: cs =>
      if c.isAlpha then
        (if prevAlpha then c.toLower else c.toUpper) :: titleAux true cs
      else c :: titleAux false cs

/-- Python's `str.title` (ASCII). -/
def pyTitle (s : String) : String := String.mk (titleAux false s.data)

/-- Drop a literal character sequence from the front of a list, or fail. -/
def dropLit : List Char → List Char → Option (List Char)
  | [], s => some s
  | _ :: _, [] => none
  | p :: ps, c :: cs => if p == c then dropLit ps cs else none

/-- Worker for `pyReplace`; the fuel is initialised to the string length
(each step consumes at least one character for a non-empty pattern). -/
def replaceAux (pat rep : List Char) : Nat → List Char → List Char
  | 0, s => s
  | _ + 1, [] => []
  | fuel + 1, c :: cs =>
      match dropLit pat (c :: cs) with
      | some rest => rep ++ replaceAux pat rep fuel rest
      | none => c :: replaceAux pat rep fuel cs

/-- Python's `str.replace`: replace every non-overlapping occurrence,
scanning left to right. -/
def pyReplace (s pat rep : String) : String :=
  String.mk (replaceAux pat.data rep.data s.data.length s.data)

/-- Python's f-string rendering of a value that may be `None`
(`os.getenv` results interpolated into URLs). -/
def pyFmt : Option String → String
  | none => "None"
  | some s => s

/-- Python truthiness of an optional environment-variable value: `not x` is
true when the variable is unset or empty. -/
def pyFalsyEnv : Option String → Bool
  | none => true
  | some s => s.isEmpty

/-! ## Issue-ID extraction (the Issue-ID Extractor, §4.1)

Two regexes occur in the sources:
- `\b(?:ESS|NMS|DOPS)-\d{3,4}\b` with `re.findall`, in
  `parse_jira_titles.py`, `jira_changelog_processor.py` and `parse2.py`
  (the match is the whole token);
- `\b(ESS|NMS)-\d+\b` with `re.findall`, in `extract_jira_titles.py`
  (one capturing group, so `findall` returns the group text, i.e. the
  bare project code, and the digit count is unbounded).

Both are embedded as explicit scanners with Python's `re` semantics:
non-overlapping matches found left to right, alternation tried in written
order, greedy counted repetition with backtracking, and `\b` holding where
exactly one side is a word character. -/

/-- Word-boundary check for the position after a match: holds at end of input
or before a non-word character. -/
def boundaryAfterOk : List Char → Bool
  | [] => true
  | c :: _ => !isWordChar c

/-- Take exactly `n` digits from the front of the input. -/
def takeDigitsN : Nat → List Char → Option (List Char × List Char)
  | 0, s => some ([], s)
  | _ + 1, [] => none
  | n + 1, c :: cs =>
      if c.isDigit then (takeDigitsN n cs).map (fun p => (c :: p.1, p.2)) else none

/-- The alternation `(?:ESS|NMS|DOPS)`, tried in written order; returns the
matched alternative and the remaining input. -/
def matchAlt (s : List Char) : Option (List Char × List Char) :=
  match dropLit ['E', 'S', 'S'] s with
  | some r => some (['E', 'S', 'S'], r)
  | none =>
      match dropLit ['N', 'M', 'S'] s with
      | some r => some (['N', 'M', 'S'], r)
      | none =>
          match dropLit ['D', 'O', 'P', 'S'] s with
          | some r => some (['D', 'O', 'P', 'S'], r)
          | none => none

/-- The `\d{3}` fallback of the greedy `\d{3,4}` followed by `\b`. -/
def tryDigits3 (p s2 : List Char) : Option (List Char × List Char) :=
  match takeDigitsN 3 s2 with
  | some (d, r) => if boundaryAfterOk r then some (p ++ '-' :: d, r) else none
  | none => none

/-- Match `(?:ESS|NMS|DOPS)-\d{3,4}\b` at the head of the input (the leading
`\b` is checked by the scanner).  Greedy: four digits are tried first, then
three.  Returns the matched token and the remaining input. -/
def matchId34 (s : List Char) : Option (List Char × List Char) :=
  match matchAlt s with
  | none => none
  | some (p, s1) =>
      match s1 with
      | c :: s2 =>
          if c = '-' then
            (match takeDigitsN 4 s2 with
             | some (d, r) =>
                 if boundaryAfterOk r then some (p ++ '-' :: d, r) else tryDigits3 p s2
             | none => tryDigits3 p s2)
          else none
      | [] => none

/-- Left-to-right non-overlapping scan with `matchId34`.  The boolean records
whether the previous character is a word character (so `\b` holds at the
current position only when it is `false`, since every match starts with a
letter); the fuel is initialised to the input length. -/
def scanAux34 : Nat → List Char → Bool → List (List Char)
  | 0, _, _ => []
  | _ + 1, [], _ => []
  | fuel + 1, c :: cs, pw =>
      if pw then scanAux34 fuel cs (isWordChar c)
      else
        match matchId34 (c :: cs) with
        | some (tok, rest) => tok :: scanAux34 fuel rest true
        | none => scanAux34 fuel cs (isWordChar c)

/-- The pattern-matching core shared by `extract_jira_ids_from_file`
(`parse_jira_titles.py`, `parse2.py`) and `extract_jira_ids_from_file`
(`jira_changelog_processor.py`): all matches of `\b(?:ESS|NMS|DOPS)-\d{3,4}\b`
in a block of text, in document order.  (The callers accumulate the results
into a set; membership below is therefore the faithful notion of "extracted".) -/
def extract_jira_ids_from_text (text : String) : List String :=
  (scanAux34 text.data.length text.data false).map (fun l => String.mk l)

/-- Length of the leading run of digits. -/
def digitRun : List Char → Nat
  | [] => 0
  | c :: cs => if c.isDigit then digitRun cs + 1 else 0

/-- Backtracking loop of a greedy `\d+` followed by `\b`: try consuming `k`
digits, then `k - 1`, ..., down to `1`; return the rest after the digits kept. -/
def backtrackDigits : Nat → List Char → Option (List Char)
  | 0, _ => none
  | k + 1, s2 =>
      let r := s2.drop (k + 1)
      if boundaryAfterOk r then some r else backtrackDigits k s2

/-- The alternation `(ESS|NMS)` of the simplest variant. -/
def matchAltPlus (s : List Char) : Option (List Char × List Char) :=
  match dropLit ['E', 'S', 'S'] s with
  | some r => some (['E', 'S', 'S'], r)
  | none =>
      match dropLit ['N', 'M', 'S'] s with
      | some r => some (['N', 'M', 'S'], r)
      | none => none

/-- Match `(ESS|NMS)-\d+\b` at the head of the input.  Because the group
captures only the project code, a successful match returns the group text
(what `re.findall` yields when the pattern has one group) and the rest. -/
def matchIdPlus (s : List Char) : Option (List Char × List Char) :=
  match matchAltPlus s with
  | none => none
  | some (p, s1) =>
      match s1 with
      | c :: s2 =>
          if c = '-' then
            (match backtrackDigits (digitRun s2) s2 with
             | some r => some (p, r)
             | none => none)
          else none
      | [] => none

/-- Left-to-right non-overlapping scan with `matchIdPlus` (group texts). -/
def scanAuxPlus : Nat → List Char → Bool → List (List Char)
  | 0, _, _ => []
  | _ + 1, [], _ => []
  | fuel + 1, c :: cs, pw =>
      if pw then scanAuxPlus fuel cs (isWordChar c)
      else
        match matchIdPlus (c :: cs) with
        | some (tok, rest) => tok :: scanAuxPlus fuel rest true
        | none => scanAuxPlus fuel cs (isWordChar c)

namespace ExtractJiraTitles

/-- `extract_jira_ids` of `extract_jira_titles.py`:
`sorted(set(re.findall(r'\b(ESS|NMS)-\d+\b', text)))`.  The single capturing
group makes `findall` return the bare project codes. -/
def extract_jira_ids (text : String) : List String :=
  pySorted ((scanAuxPlus text.data.length text.data false).map
    (fun l => String.mk l)).dedup

end ExtractJiraTitles

/-! ## JSON values and the rich-text (ADF) flattener (§4.2)

`extract_text_from_adf` appears verbatim in `parse_jira_titles.py`,
`jira_changelog_processor.py` and `parse2.py`; it is embedded once. -/

/-- A Python value as produced by `response.json()` / `json.load`. -/
inductive JsonVal where
  | null
  | bool (b : Bool)
  | num (n : Int)
  | str (s : String)
  | arr (elems : List JsonVal)
  | obj (fields : List (String × JsonVal))

/-- Dictionary lookup (first binding; Python dictionaries have unique keys). -/
def getField : List (String × JsonVal) → String → Option JsonVal
  | [], _ => none
  | (k, v) :: rest, key => if k == key then some v else getField rest key

theorem sizeOf_getField {fs : List (String × JsonVal)} {key : String} {v : JsonVal}
    (h : getField fs key = some v) : sizeOf v < sizeOf fs := by
  induction fs with
  | nil => simp [getField] at h
  | cons p rest ih =>
      obtain ⟨k, w⟩ := p
      simp only [getField] at h
      by_cases hk : (k == key) = true
      · simp only [hk, if_true, Option.some.injEq] at h
        subst h
        simp
        omega
      · simp only [hk, if_false, Bool.false_eq_true] at h
        have := ih h
        simp
        omega

/-- The check `adf_json.get("type") == "text"`: true only when the `type`
field holds exactly the string `"text"`. -/
def typeIsText (fs : List (String × JsonVal)) : Bool :=
  match getField fs "type" with
  | some (.str t) => t == "text"
  | _ => false

mutual

/-- `extract_text_from_adf`.  A `none` result models a raised exception:
iterating a `content` value that is not iterable (`null`, a number or a
boolean) raises `TypeError`, and so does `''.join` over a child whose
flattening is not a string.  A dictionary-valued `content` is iterated over
its keys (each a string, flattening to `""`), and a string-valued `content`
over its characters (each a one-character string, flattening to `""`),
exactly as Python iteration does. -/
def extract_text_from_adf : JsonVal → Option JsonVal
  | .obj fs =>
      if typeIsText fs then some ((getField fs "text").getD (.str ""))
      else
        match h : getField fs "content" with
        | some (.arr xs) => (extractJoin xs).map .str
        | some (.obj gs) => some (.str (String.join (gs.map (fun _ => ""))))
        | some (.str t) => some (.str (String.join (t.data.map (fun _ => ""))))
        | some _ => none
        | none => some (.str "")
  | .arr xs => (extractJoin xs).map .str
  | _ => some (.str "")
termination_by v => sizeOf v
decreasing_by
  all_goals first
    | (have hs := sizeOf_getField h; simp at hs ⊢ <;> omega)
    | (simp <;> omega)

/-- `''.join(extract_text_from_adf(child) for child in children)`:
fails (`none`) as soon as one child's flattening is not a string. -/
def extractJoin : List JsonVal → Option String
  | [] => some ""
  | v :: vs =>
      match extract_text_from_adf v with
      | some (.str s) => (extractJoin vs).map (fun t => s ++ t)
      | _ => none
termination_by l => sizeOf l
decreasing_by
  all_goals simp <;> omega

end

mutual

/-- Modelled from the spec: the text promised by §4.2 / claim C5 — the
concatenation, in document order, of the text of all nodes whose type
discriminator is "text", recursing through every `content` list and through
top-level lists. -/
def adfTextSpec : JsonVal → String
  | .obj fs =>
      (if typeIsText fs then
         match getField fs "text" with
         | some (.str s) => s
         | _ => ""
       else "")
      ++ (match h : getField fs "content" with
          | some (.arr xs) => adfTextSpecList xs
          | _ => "")
  | .arr xs => adfTextSpecList xs
  | _ => ""
termination_by v => sizeOf v
decreasing_by
  all_goals first
    | (have hs := sizeOf_getField h; simp at hs ⊢ <;> omega)
    | (simp <;> omega)

/-- Concatenation of `adfTextSpec` over a list of nodes, in order. -/
def adfTextSpecList : List JsonVal → String
  | [] => ""
  | v :: vs => adfTextSpec v ++ adfTextSpecList vs
termination_by l => sizeOf l
decreasing_by
  all_goals simp <;> omega

end

mutual

/-- Well-formed rich-text (ADF) document: a text node carries a string `text`
and no `content`; any other node's `content`, when present, is a list of
well-formed nodes; lists are lists of well-formed nodes. -/
def isADF : JsonVal → Bool
  | .obj fs =>
      if typeIsText fs then
        (match getField fs "text" with
         | some (.str _) => true
         | _ => false)
        && (getField fs "content").isNone
      else
        match h : getField fs "content" with
        | some (.arr xs) => isADFList xs
        | some _ => false
        | none => true
  | .arr xs => isADFList xs
  | _ => false
termination_by v => sizeOf v
decreasing_by
  all_goals first
    | (have hs := sizeOf_getField h; simp at hs ⊢ <;> omega)
    | (simp <;> omega)

/-- `isADF` over every element of a list. -/
def isADFList : List JsonVal → Bool
  | [] => true
  | v :: vs => isADF v && isADFList vs
termination_by l => sizeOf l
decreasing_by
  all_goals simp <;> omega

end

mutual

/-- Values on which the flattener provably returns a string without raising:
every `content` field holds a list (of such values), a record or a string —
never a non-iterable scalar — and every text node's `text` value, where
present, is a string. -/
def adfSafe : JsonVal → Bool
  | .obj fs =>
      if typeIsText fs then
        (match getField fs "text" with
         | some (.str _) => true
         | none => true
         | _ => false)
      else
        match h : getField fs "content" with
        | some (.arr xs) => adfSafeList xs
        | some (.obj _) => true
        | some (.str _) => true
        | some _ => false
        | none => true
  | .arr xs => adfSafeList xs
  | _ => true
termination_by v => sizeOf v
decreasing_by
  all_goals first
    | (have hs := sizeOf_getField h; simp at hs ⊢ <;> omega)
    | (simp <;> omega)

/-- `adfSafe` over every element of a list. -/
def adfSafeList : List JsonVal → Bool
  | [] => true
  | v :: vs => adfSafe v && adfSafeList vs
termination_by l => sizeOf l
decreasing_by
  all_goals simp <;> omega

end

/-! ## Python rendering of values into HTML cells -/

mutual

/-- Python's `repr` of a JSON-shaped value (string escaping inside nested
reprs is not reproduced; no claim depends on it). -/
def pyRepr : JsonVal → String
  | .null => "None"
  | .bool true => "True"
  | .bool false => "False"
  | .num n => toString n
  | .str s => "\x27" ++ s ++ "\x27"
  | .arr xs => "[" ++ pyReprList xs ++ "]"
  | .obj fs => "\x7b" ++ pyReprFields fs ++ "\x7d"
termination_by v => sizeOf v
decreasing_by all_goals simp <;> omega

/-- Comma-separated reprs of list elements. -/
def pyReprList : List JsonVal → String
  | [] => ""
  | [v] => pyRepr v
  | v :: vs => pyRepr v ++ ", " ++ pyReprList vs
termination_by l => sizeOf l
decreasing_by all_goals simp <;> omega

/-- Comma-separated `'key': repr` entries of a dictionary. -/
def pyReprFields : List (String × JsonVal) → String
  | [] => ""
  | [(k, v)] => "\x27" ++ k ++ "\x27: " ++ pyRepr v
  | (k, v) :: fs => "\x27" ++ k ++ "\x27: " ++ pyRepr v ++ ", " ++ pyReprFields fs
termination_by l => sizeOf l
decreasing_by all_goals simp <;> omega

end

/-- Python's `str()` as used by f-string interpolation of a field value. -/
def pyStr : JsonVal → String
  | .str s => s
  | v => pyRepr v

/-- Python truthiness of a JSON-shaped value (`x or "—"`). -/
def pyTruthy : JsonVal → Bool
  | .null => false
  | .bool b => b
  | .num n => n != 0
  | .str s => !s.isEmpty
  | .arr xs => !xs.isEmpty
  | .obj fs => !fs.isEmpty

/-- Python's `x or d`. -/
def pyOr (x d : JsonVal) : JsonVal := if pyTruthy x then x else d

/-- Python's `v.get(key, dflt)`: `none` models the `AttributeError` raised
when `v` is not a dictionary. -/
def pyDictGet (v : JsonVal) (key : String) (dflt : JsonVal) : Option JsonVal :=
  match v with
  | .obj fs => some ((getField fs key).getD dflt)
  | _ => none

/-- Python's `v[key]`: `none` models the exception raised when `v` is not a
dictionary (`TypeError`) or the key is absent (`KeyError`). -/
def pyIndex (v : JsonVal) (key : String) : Option JsonVal :=
  match v with
  | .obj fs => getField fs key
  | _ => none

/-! ## Jira-facing configuration, requests and errors (§4.3, §4.4) -/

/-- The three environment variables read by every Jira-facing tool. -/
structure JiraConfig where
  url : Option String
  email : Option String
  token : Option String

/-- The check `if not base_url or not email or not token` of the
`get_jira_details` family. -/
def envMissing (cfg : JiraConfig) : Bool :=
  pyFalsyEnv cfg.url || pyFalsyEnv cfg.email || pyFalsyEnv cfg.token

/-- How an embedded Jira call can raise: the explicit missing-configuration
error, or a runtime exception from indexing an unexpected response shape. -/
inductive FetchErr where
  | missingConfig
  | runtimeErr
deriving DecidableEq, Repr

/-- The response the remote side would give to a request. -/
structure HttpResponse where
  status : Nat
  body : JsonVal

/-- An authenticated GET issued by a `get_jira_details` variant. -/
structure JiraRequest where
  url : String
  email : String
  token : String
deriving DecidableEq, Repr

namespace JiraChangelogProcessor

/-- The record returned by `get_jira_details` of `jira_changelog_processor.py`. -/
structure IssueDetail where
  jira : String
  title : JsonVal
  status : JsonVal
  pre_change : JsonVal
  post_change : JsonVal
  include_in_release_notes : JsonVal

/-- Field extraction of the 200 branch of `get_jira_details`
(`jira_changelog_processor.py`); `none` models a raised exception. -/
def detailsFromBody (jira_id : String) (body : JsonVal) : Option IssueDetail := do
  let fields ← pyDictGet body "fields" (.obj [])
  let title ← pyDictGet fields "summary" (.str "—")
  let statusObj ← pyDictGet fields "status" (.obj [])
  let statusName ← pyDictGet statusObj "name" (.str "—")
  let preRaw ← pyDictGet fields "customfield_10131" (.obj [])
  let preTxt ← extract_text_from_adf preRaw
  let postRaw ← pyDictGet fields "customfield_10096" (.obj [])
  let postTxt ← extract_text_from_adf postRaw
  let inclRaw ← pyDictGet fields "customfield_10053" JsonVal.null
  let incl : JsonVal :=
    match inclRaw with
    | .obj gs => (getField gs "value").getD JsonVal.null
    | _ => .str "—"
  pure { jira := jira_id, title := title, status := statusName,
         pre_change := pyOr preTxt (.str "—"), post_change := pyOr postTxt (.str "—"),
         include_in_release_notes := incl }

/-- `get_jira_details` of `jira_changelog_processor.py`: checks the three
environment variables, then issues one GET; a non-200 response yields the
synthetic placeholder record. -/
def get_jira_details (cfg : JiraConfig) (resp : HttpResponse) (jira_id : String) :
    Except FetchErr (JiraRequest × IssueDetail) :=
  if envMissing cfg then .error .missingConfig
  else
    let req : JiraRequest :=
      { url := cfg.url.getD "" ++ "/rest/api/3/issue/" ++ jira_id,
        email := cfg.email.getD "", token := cfg.token.getD "" }
    if resp.status != 200 then
      .ok (req, { jira := jira_id,
                  title := .str ("(Error " ++ toString resp.status ++ ")"),
                  status := .str "—", pre_change := .str "—", post_change := .str "—",
                  include_in_release_notes := .str "—" })
    else
      match detailsFromBody jira_id resp.body with
      | some d => .ok (req, d)
      | none => .error .runtimeErr

/-- `[get_jira_details(jira_id) for jira_id in sorted(jira_ids)]`: the batch
loop of `main`, fetching one reference at a time; a raised exception aborts
the comprehension. -/
def processBatch (cfg : JiraConfig) (world : String → HttpResponse) :
    List String → Except FetchErr (List IssueDetail)
  | [] => .ok []
  | jira_id :: rest =>
      match get_jira_details cfg (world jira_id) jira_id with
      | .error e => .error e
      | .ok (_, d) =>
          match processBatch cfg world rest with
          | .error e => .error e
          | .ok ds => .ok (d :: ds)

/-- `write_markdown_table` of `jira_changelog_processor.py`: the full content
written to the output file. -/
def write_markdown_table (cfg : JiraConfig) (details_list : List IssueDetail) : String :=
  "<style>\n"
  ++ "table \x7b width: 100%; border-collapse: collapse; table-layout: fixed; \x7d\n"
  ++ "th, td \x7b border: 1px solid #ddd; padding: 8px; text-align: left; vertical-align: top; \x7d\n"
  ++ "th:nth-child(1), td:nth-child(1) \x7b width: 5%; white-space: nowrap; \x7d\n"
  ++ "th:nth-child(2), td:nth-child(2) \x7b width: 20%; white-space: wrap; \x7d\n"
  ++ "th:nth-child(3), td:nth-child(3), th:nth-child(4), td:nth-child(4) \x7b width: 5%; white-space: nowrap; \x7d\n"
  ++ "th:nth-child(5), td:nth-child(5), th:nth-child(6), td:nth-child(6) \x7b width: 10%; word-break: break-word; \x7d\n"
  ++ "</style>\n"
  ++ "<table>\n"
  ++ "<tr><th>Jira ID</th><th>Title</th><th>Status</th><th>CustomerVisible</th><th>Pre-Change Note</th><th>Post-Change Note</th></tr>\n"
  ++ String.join (details_list.map (fun item =>
       let jira_link := "<a href=\x27" ++ pyFmt cfg.url ++ "/browse/" ++ item.jira
         ++ "\x27 target=\x27_blank\x27>" ++ item.jira ++ "</a>"
       "<tr><td>" ++ jira_link ++ "</td><td>" ++ pyStr item.title ++ "</td><td>"
         ++ pyStr item.status ++ "</td><td>" ++ pyStr item.include_in_release_notes
         ++ "</td><td>" ++ pyStr item.pre_change ++ "</td><td>" ++ pyStr item.post_change
         ++ "</td></tr>\n"))
  ++ "</table>\n"

end JiraChangelogProcessor

namespace ParseJiraTitles

/-- The record returned by `get_jira_details` of `parse_jira_titles.py`
(title, status and the two notes). -/
structure IssueDetail where
  jira : String
  title : JsonVal
  status : JsonVal
  pre_change : JsonVal
  post_change : JsonVal

/-- Field extraction of the 200 branch of `get_jira_details`
(`parse_jira_titles.py`); `none` models a raised exception. -/
def detailsFromBody (jira_id : String) (body : JsonVal) : Option IssueDetail := do
  let fields ← pyDictGet body "fields" (.obj [])
  let title ← pyDictGet fields "summary" (.str "—")
  let statusObj ← pyDictGet fields "status" (.obj [])
  let statusName ← pyDictGet statusObj "name" (.str "—")
  let preRaw ← pyDictGet fields "customfield_10131" (.obj [])
  let preTxt ← extract_text_from_adf preRaw
  let postRaw ← pyDictGet fields "customfield_10096" (.obj [])
  let postTxt ← extract_text_from_adf postRaw
  pure { jira := jira_id, title := title, status := statusName,
         pre_change := pyOr preTxt (.str "—"), post_change := pyOr postTxt (.str "—") }

/-- `get_jira_details` of `parse_jira_titles.py`: checks the three environment
variables (raising `ValueError` when one is falsy), then issues one GET; a
non-200 response yields the synthetic placeholder record. -/
def get_jira_details (cfg : JiraConfig) (resp : HttpResponse) (jira_id : String) :
    Except FetchErr (JiraRequest × IssueDetail) :=
  if envMissing cfg then .error .missingConfig
  else
    let req : JiraRequest :=
      { url := cfg.url.getD "" ++ "/rest/api/3/issue/" ++ jira_id,
        email := cfg.email.getD "", token := cfg.token.getD "" }
    if resp.status != 200 then
      .ok (req, { jira := jira_id,
                  title := .str ("(Error " ++ toString resp.status ++ ")"),
                  status := .str "—", pre_change := .str "—",
                  post_change := .str "—" })
    else
      match detailsFromBody jira_id resp.body with
      | some d => .ok (req, d)
      | none => .error .runtimeErr

/-- `write_markdown_table` of `parse_jira_titles.py`. -/
def write_markdown_table (cfg : JiraConfig) (details_list : List IssueDetail) : String :=
  "<style>\n"
  ++ "table \x7b width: 100%; border-collapse: collapse; table-layout: fixed;  \x7d\n"
  ++ "th, td \x7b border: 1px solid #ddd; padding: 8px; text-align: left; vertical-align: top; \x7d\n"
  ++ "th:nth-child(1) \x7b width: 10%; white-space: nowrap; \x7d\n"
  ++ "th:nth-child(2) \x7b width: 10%; \x7d\n"
  ++ "th:nth-child(3) \x7b width: 10%; \x7d\n"
  ++ "th:nth-child(4), th:nth-child(5) \x7b width: 25%; word-break: break-word; \x7d\n"
  ++ "</style>\n"
  ++ "<table>\n"
  ++ "<tr><th>Jira ID</th><th>Title</th><th>Status</th><th>Pre-Change Note</th><th>Post-Change Note</th></tr>\n"
  ++ String.join (details_list.map (fun item =>
       let jira_link := "<a href=\x27" ++ pyFmt cfg.url ++ "/browse/" ++ item.jira
         ++ "\x27 target=\x27_blank\x27>" ++ item.jira ++ "</a>"
       "<tr><td>" ++ jira_link ++ "</td><td>" ++ pyStr item.title ++ "</td><td>"
         ++ pyStr item.status ++ "</td><td>" ++ pyStr item.pre_change ++ "</td><td>"
         ++ pyStr item.post_change ++ "</td></tr>\n"))
  ++ "</table>\n"

end ParseJiraTitles

namespace Parse2

/-- The record returned by `get_jira_details` of `parse2.py` (adds the issue
type to the processor variant's fields). -/
structure IssueDetail where
  jira : String
  title : JsonVal
  status : JsonVal
  type : JsonVal
  pre_change : JsonVal
  post_change : JsonVal
  include_in_release_notes : JsonVal

/-- Field extraction of the 200 branch of `get_jira_details` (`parse2.py`). -/
def detailsFromBody (jira_id : String) (body : JsonVal) : Option IssueDetail := do
  let fields ← pyDictGet body "fields" (.obj [])
  let title ← pyDictGet fields "summary" (.str "—")
  let statusObj ← pyDictGet fields "status" (.obj [])
  let statusName ← pyDictGet statusObj "name" (.str "—")
  let typeObj ← pyDictGet fields "issuetype" (.obj [])
  let typeName ← pyDictGet typeObj "name" (.str "—")
  let preRaw ← pyDictGet fields "customfield_10131" (.obj [])
  let preTxt ← extract_text_from_adf preRaw
  let postRaw ← pyDictGet fields "customfield_10096" (.obj [])
  let postTxt ← extract_text_from_adf postRaw
  let inclRaw ← pyDictGet fields "customfield_10053" JsonVal.null
  let incl : JsonVal :=
    match inclRaw with
    | .obj gs => (getField gs "value").getD JsonVal.null
    | _ => .str "—"
  pure { jira := jira_id, title := title, status := statusName, type := typeName,
         pre_change := pyOr preTxt (.str "—"), post_change := pyOr postTxt (.str "—"),
         include_in_release_notes := incl }

/-- `get_jira_details` of `parse2.py`. -/
def get_jira_details (cfg : JiraConfig) (resp : HttpResponse) (jira_id : String) :
    Except FetchErr (JiraRequest × IssueDetail) :=
  if envMissing cfg then .error .missingConfig
  else
    let req : JiraRequest :=
      { url := cfg.url.getD "" ++ "/rest/api/3/issue/" ++ jira_id,
        email := cfg.email.getD "", token := cfg.token.getD "" }
    if resp.status != 200 then
      .ok (req, { jira := jira_id,
                  title := .str ("(Error " ++ toString resp.status ++ ")"),
                  status := .str "—", type := .str "—",
                  pre_change := .str "—", post_change := .str "—",
                  include_in_release_notes := .str "—" })
    else
      match detailsFromBody jira_id resp.body with
      | some d => .ok (req, d)
      | none => .error .runtimeErr

/-- One available workflow transition, as consumed from the transition-list
response (`id` and `name` of each entry). -/
structure Transition where
  id : String
  name : String
deriving DecidableEq, Repr

/-- A call issued against the issue tracker by the Issue Updater. -/
inductive JiraCall where
  | putField (jira_id field value : String)
  | getTransitions (jira_id : String)
  | postTransition (jira_id transition_id : String)
deriving DecidableEq, Repr

/-- What the remote side would answer during one `update_jira_delivery_and_status`
call: the status of the PUT, the status and body of the transition-list GET,
and the status of the transition POST. -/
structure UpdateWorld where
  putStatus : Nat
  transitionsStatus : Nat
  transitions : List Transition
  postStatus : Nat
deriving DecidableEq, Repr

/-- `update_jira_delivery_and_status` of `parse2.py`, returning the calls it
issues in order: always the delivery-version PUT (`customfield_10097`); then,
only when the issue type is `"bug"` case-insensitively, the transition-list
GET; and, when that list yields a transition named `"ready for verification"`
case-insensitively, the transition POST.  Non-2xx responses only print
warnings and never abort. -/
def update_jira_delivery_and_status (cfg : JiraConfig) (w : UpdateWorld)
    (jira_id version issue_type : String) : Except FetchErr (List JiraCall) :=
  if envMissing cfg then .error .missingConfig
  else
    let calls : List JiraCall := [.putField jira_id "customfield_10097" version]
    if pyLower issue_type != "bug" then .ok calls
    else
      let calls := calls ++ [.getTransitions jira_id]
      if w.transitionsStatus != 200 then .ok calls
      else
        match w.transitions.find? (fun t => pyLower t.name == "ready for verification") with
        | none => .ok calls
        | some t => .ok (calls ++ [.postTransition jira_id t.id])

/-- `write_markdown_table` of `parse2.py` (adds the Type column). -/
def write_markdown_table (cfg : JiraConfig) (details_list : List IssueDetail) : String :=
  "<style>\n"
  ++ "table \x7b width: 100%; border-collapse: collapse; table-layout: fixed; \x7d\n"
  ++ "th, td \x7b border: 1px solid #ddd; padding: 8px; text-align: left; vertical-align: top; \x7d\n"
  ++ "th:nth-child(1), td:nth-child(1) \x7b width: 5%; white-space: nowrap; \x7d\n"
  ++ "th:nth-child(2), td:nth-child(2) \x7b width: 10%; white-space: nowrap; \x7d\n"
  ++ "th:nth-child(3), td:nth-child(3), th:nth-child(4), td:nth-child(4) \x7b width: 5%; white-space: nowrap; \x7d\n"
  ++ "th:nth-child(5), td:nth-child(5), th:nth-child(6), td:nth-child(6) \x7b width: 20%; word-break: break-word; \x7d\n"
  ++ "</style>\n"
  ++ "<table>\n"
  ++ "<tr><th>Jira ID</th><th>Title</th><th>Status</th><th>Type</th><th>CustomerVisible</th><th>Pre-Change Note</th><th>Post-Change Note</th></tr>\n"
  ++ String.join (details_list.map (fun item =>
       let jira_link := "<a href=\x27" ++ pyFmt cfg.url ++ "/browse/" ++ item.jira
         ++ "\x27 target=\x27_blank\x27>" ++ item.jira ++ "</a>"
       "<tr><td>" ++ jira_link ++ "</td><td>" ++ pyStr item.title ++ "</td><td>"
         ++ pyStr item.status ++ "</td><td>" ++ pyStr item.type ++ "</td><td>"
         ++ pyStr item.include_in_release_notes ++ "</td><td>" ++ pyStr item.pre_change
         ++ "</td><td>" ++ pyStr item.post_change ++ "</td></tr>\n"))
  ++ "</table>\n"

end Parse2

namespace ExtractJiraTitles

/-- The GET issued by `fetch_jira_title`: the URL is built by f-string
interpolation of the module-level `JIRA_URL` (rendered `"None"` when unset),
and the basic-auth pair is passed through unchecked. -/
structure TitleRequest where
  url : String
  email : Option String
  token : Option String
deriving DecidableEq, Repr

/-- `fetch_jira_title` of `extract_jira_titles.py`: no environment check is
performed; the request is always issued.  On a 200 response the summary is
read by raw indexing (`none` models the `KeyError`); otherwise the function
returns Python `None` (here `.ok none`). -/
def fetch_jira_title (cfg : JiraConfig) (resp : HttpResponse) (jira_id : String) :
    TitleRequest × Except FetchErr (Option JsonVal) :=
  let req : TitleRequest :=
    { url := pyFmt cfg.url ++ "/rest/api/3/issue/" ++ jira_id,
      email := cfg.email, token := cfg.token }
  (req,
   if resp.status == 200 then
     match pyIndex resp.body "fields" with
     | none => .error .runtimeErr
     | some fv =>
         match pyIndex fv "summary" with
         | none => .error .runtimeErr
         | some s => .ok (some s)
   else .ok none)

/-- `process_changelog_file` of `extract_jira_titles.py`, as the content it
writes to the output file: the placeholder line when no IDs are found, else
one bullet per extracted ID, with the fetched title or the fallback line.
The title fetch is abstracted by `fetch` (its `none` is Python's `None`
result for a failed fetch). -/
def process_changelog_file (fetch : String → Option String) (content : String) : String :=
  let jira_ids := extract_jira_ids content
  if jira_ids.isEmpty then "- No Jira issues found.\n"
  else
    String.join (jira_ids.map (fun jid =>
      match fetch jid with
      | some title => "- " ++ jid ++ ": " ++ title ++ "\n"
      | none => "- " ++ jid ++ ": ⚠️ Could not fetch title\n"))

end ExtractJiraTitles

/-! ## The orchestrator entry points (§4.6)

Each `main` is embedded from the point where the set of discovered issue
references is in hand (discovery itself is `extract_jira_ids_from_text` /
`extract_jira_ids` above); the per-reference fetch is a function argument.
The run result records what was written to the output file (`none` when the
script never writes it), which references were fetched, and the argument of
`sys.exit` when it is called. -/

/-- Outcome of one orchestrator run. -/
structure OrchRun where
  outputContent : Option String
  fetchedIds : List String
  exitCode : Option Nat
deriving Repr

namespace ParseJiraTitles

/-- `main` of `parse_jira_titles.py` after ID discovery: with no IDs it
writes the fixed placeholder and exits 0; otherwise it fetches the sorted
IDs and writes the table. -/
def mainRun (cfg : JiraConfig) (fetch : String → IssueDetail)
    (jira_ids : List String) : OrchRun :=
  if jira_ids.isEmpty then
    { outputContent := some "_No Jira issues found in changelogs._\n",
      fetchedIds := [], exitCode := some 0 }
  else
    let sortedIds := pySorted jira_ids
    { outputContent := some (write_markdown_table cfg (sortedIds.map fetch)),
      fetchedIds := sortedIds, exitCode := none }

end ParseJiraTitles

namespace JiraChangelogProcessor

/-- `main` of `jira_changelog_processor.py` after ID discovery: with no IDs
it prints a notice and exits 0 without writing the output file; otherwise it
fetches the sorted IDs and writes the table. -/
def mainRun (cfg : JiraConfig) (fetch : String → IssueDetail)
    (jira_ids : List String) : OrchRun :=
  if jira_ids.isEmpty then
    { outputContent := none, fetchedIds := [], exitCode := some 0 }
  else
    let sortedIds := pySorted jira_ids
    { outputContent := some (write_markdown_table cfg (sortedIds.map fetch)),
      fetchedIds := sortedIds, exitCode := none }

end JiraChangelogProcessor

namespace Parse2

/-- `main` of `parse2.py` after ID discovery: with no IDs it writes the fixed
placeholder and exits 0 (no update call is made); otherwise, for each sorted
ID in order, it fetches the details and invokes the updater with the fetched
issue type (`upd`, abstracting `update_jira_delivery_and_status`), then
writes the table.  The second component collects the updater calls. -/
def mainRun (cfg : JiraConfig) (fetch : String → IssueDetail)
    (upd : String → JsonVal → List JiraCall) (jira_ids : List String) :
    OrchRun × List JiraCall :=
  if jira_ids.isEmpty then
    ({ outputContent := some "_No Jira issues found in changelogs._\n",
       fetchedIds := [], exitCode := some 0 }, [])
  else
    let sortedIds := pySorted jira_ids
    let details_list := sortedIds.map fetch
    ({ outputContent := some (write_markdown_table cfg details_list),
       fetchedIds := sortedIds, exitCode := none },
     (sortedIds.map (fun jid => upd jid (fetch jid).type)).join)

end Parse2

/-! ## Repository State Monitor (`check_repos.py`, §4.7) -/

namespace CheckRepos

/-- A repository snapshot: name to archived flag, in listing order
(a Python dictionary, so keys are unique in practice). -/
abbrev RepoState := List (String × Bool)

/-- Python's `repo in state`. -/
def stateMem (repo : String) (state : RepoState) : Bool :=
  state.any (fun p => p.1 == repo)

/-- Python's `state[repo]` under a `repo in state` guard (first binding). -/
def stateGet (state : RepoState) (repo : String) : Bool :=
  ((state.find? (fun p => p.1 == repo)).map (fun p => p.2)).getD false

/-- `analyze_repo_changes` of `check_repos.py`: new repositories are the
names iterated from the new state that are not in the old state; archival
changes are the names in both whose flag differs. -/
def analyze_repo_changes (old_state new_state : RepoState) :
    List String × List String :=
  let new_repos := (new_state.map (fun p => p.1)).filter
    (fun repo => !stateMem repo old_state)
  let archived_changed := (new_state.map (fun p => p.1)).filter
    (fun repo => stateMem repo old_state
      && (stateGet new_state repo != stateGet old_state repo))
  (new_repos, archived_changed)

/-- The comparison-and-persist tail of `main` (`check_repos.py`): on a first
run (no previous state file) no diff is computed; otherwise the diff of the
loaded previous state against the current one is reported.  In both cases
the current state is what gets persisted. -/
def monitorRun (previous : Option RepoState) (current : RepoState) :
    Option (List String × List String) × RepoState :=
  match previous with
  | none => (none, current)
  | some old_state => (some (analyze_repo_changes old_state current), current)

end CheckRepos

/-! ## Component-version table generator (`generate_component_table.py`, §4.8) -/

namespace GenerateComponentTable

/-- The display label of one manifest key:
`key.replace("nms_", "").replace("_version", "").replace("_", " ").title()`.
Python's `replace` removes every occurrence of its pattern. -/
def componentLabel (key : String) : String :=
  pyTitle (pyReplace (pyReplace (pyReplace key "nms_" "") "_version" "") "_" " ")

/-- Python's tuple order on dictionary items, as used by
`sorted(data.items())`: by key, then by value. -/
def pairLe (a b : String × String) : Bool :=
  lexLt a.1.data b.1.data || (a.1 == b.1 && !lexLt b.2.data a.2.data)

/-- The fixed lines preceding the rows of the component-version table. -/
def tableHeaderLines : List String :=
  ["<h2 style=\x27margin-top:30px;\x27>Component Versions</h2>",
   "<table border=\x271\x27 cellpadding=\x276\x27 cellspacing=\x270\x27 style=\x27border-collapse:collapse;width:100%\x27>",
   "<tr><th>Component</th><th>Version</th></tr>"]

/-- `generate_table` of `generate_component_table.py`, applied to the parsed
manifest mapping (its items, in insertion order). -/
def generate_table (data : List (String × String)) : String :=
  String.intercalate "\n"
    (tableHeaderLines
      ++ (sortLe pairLe data).map (fun kv =>
            "<tr><td>" ++ componentLabel kv.1 ++ "</td><td>" ++ kv.2 ++ "</td></tr>")
      ++ ["</table>"])

/-- Modelled from the spec: the label derivation described by claim C9 —
strip the literal `"nms_"` only as a leading prefix of the key and the
literal `"_version"` only as a trailing suffix, replace the remaining
underscores with spaces, title-case, and preserve all other characters. -/
def componentLabelSpec (key : String) : String :=
  let k1 :=
    match dropLit "nms_".data key.data with
    | some r => r
    | none => key.data
  let k2 :=
    match dropLit "_version".data.reverse k1.reverse with
    | some r => r.reverse
    | none => k1
  pyTitle (String.mk (k2.map (fun c => if c == '_' then ' ' else c)))

end GenerateComponentTable

/-! ## Claims about the Repository State Monitor (C2, C10) -/

theorem stateMem_iff (repo : String) (state : CheckRepos.RepoState) :
    CheckRepos.stateMem repo state = true ↔ repo ∈ state.map (fun p => p.1) := by
  simp [CheckRepos.stateMem, List.any_eq_true, List.mem_map]

/-- Claim C2: the diff reports as new repositories exactly the names present
in the new snapshot but absent from the old one, and as archival-status
changes exactly the names present in both whose archived flag differs; on the
snapshots of the claim's example the result is `(["c"], ["b"])`. -/
theorem claim_c2 :
    (∀ (old_state new_state : CheckRepos.RepoState) (repo : String),
      (repo ∈ (CheckRepos.analyze_repo_changes old_state new_state).1 ↔
        repo ∈ new_state.map (fun p => p.1) ∧ ¬ repo ∈ old_state.map (fun p => p.1))
      ∧ (repo ∈ (CheckRepos.analyze_repo_changes old_state new_state).2 ↔
          repo ∈ new_state.map (fun p => p.1) ∧ repo ∈ old_state.map (fun p => p.1)
            ∧ CheckRepos.stateGet new_state repo ≠ CheckRepos.stateGet old_state repo))
    ∧ CheckRepos.analyze_repo_changes [("a", false), ("b", true)]
        [("a", false), ("b", false), ("c", false)] = (["c"], ["b"]) := by
  constructor
  · intro old_state new_state repo
    have hmem_old := stateMem_iff repo old_state
    constructor
    · rw [show (CheckRepos.analyze_repo_changes old_state new_state).1
          = (new_state.map (fun p => p.1)).filter
              (fun repo => !CheckRepos.stateMem repo old_state) from rfl,
        List.mem_filter, ← hmem_old]
      constructor
      · rintro ⟨h1, h2⟩
        refine ⟨h1, ?_⟩
        simp only [Bool.not_eq_true'] at h2
        simp [h2]
      · rintro ⟨h1, h2⟩
        refine ⟨h1, ?_⟩
        simp only [Bool.not_eq_true']
        simpa using h2
    · rw [show (CheckRepos.analyze_repo_changes old_state new_state).2
          = (new_state.map (fun p => p.1)).filter
              (fun repo => CheckRepos.stateMem repo old_state
                && (CheckRepos.stateGet new_state repo
                      != CheckRepos.stateGet old_state repo)) from rfl,
        List.mem_filter, ← hmem_old]
      simp only [Bool.and_eq_true, bne_iff_ne, ne_eq, and_assoc]
  · decide

/-- Claim C10: a repository present in the previous snapshot but absent from
the current one appears in neither diff list, and the persisted state is the
current snapshot, from which the name is likewise absent. -/
theorem claim_c10 (old_state current : CheckRepos.RepoState) (repo : String)
    (hold : repo ∈ old_state.map (fun p => p.1))
    (hnew : ¬ repo ∈ current.map (fun p => p.1)) :
    ¬ repo ∈ (CheckRepos.analyze_repo_changes old_state current).1
    ∧ ¬ repo ∈ (CheckRepos.analyze_repo_changes old_state current).2
    ∧ (CheckRepos.monitorRun (some old_state) current).2 = current
    ∧ ¬ repo ∈ ((CheckRepos.monitorRun (some old_state) current).2.map (fun p => p.1)) := by
  refine ⟨?_, ?_, rfl, hnew⟩
  · intro hmem
    exact hnew ((List.mem_filter.mp hmem).1)
  · intro hmem
    exact hnew ((List.mem_filter.mp hmem).1)

theorem claim_c10_witness :
    (¬ "gone" ∈ (CheckRepos.analyze_repo_changes [("gone", false)] [("kept", true)]).1
      ∧ ¬ "gone" ∈ (CheckRepos.analyze_repo_changes [("gone", false)] [("kept", true)]).2
      ∧ (CheckRepos.monitorRun (some [("gone", false)]) [("kept", true)]).2 = [("kept", true)]
      ∧ ¬ "gone" ∈ ((CheckRepos.monitorRun (some [("gone", false)]) [("kept", true)]).2.map (fun p => p.1)))
    ∧ CheckRepos.analyze_repo_changes [("gone", false)] [("kept", true)] = (["kept"], []) :=
  ⟨claim_c10 [("gone", false)] [("kept", true)] "gone" (by decide) (by decide), by decide⟩

/-! ## Claim about the Issue Updater (C3) -/

/-- Claim C3: with complete configuration, the Issue Updater always performs
the delivery-version write; for an issue type not case-insensitively equal to
"Bug" it makes no transitions call at all; for a "bug" type (any case) it
calls the transition-list endpoint and posts a transition only when (and to)
a listed transition named "Ready for Verification" case-insensitively, doing
exactly that when the list fetch succeeds and such a transition exists. -/
theorem claim_c3 (cfg : JiraConfig) (w : Parse2.UpdateWorld)
    (jira_id version issue_type : String) (hcfg : envMissing cfg = false) :
    (pyLower issue_type ≠ "bug" →
      Parse2.update_jira_delivery_and_status cfg w jira_id version issue_type
        = .ok [.putField jira_id "customfield_10097" version])
    ∧ (pyLower issue_type = "bug" →
        ∃ calls,
          Parse2.update_jira_delivery_and_status cfg w jira_id version issue_type = .ok calls
          ∧ calls.head? = some (.putField jira_id "customfield_10097" version)
          ∧ Parse2.JiraCall.getTransitions jira_id ∈ calls
          ∧ (∀ tid, Parse2.JiraCall.postTransition jira_id tid ∈ calls →
              w.transitionsStatus = 200
              ∧ ∃ t ∈ w.transitions, t.id = tid
                  ∧ pyLower t.name = "ready for verification")
          ∧ (w.transitionsStatus = 200 →
              ∀ t, w.transitions.find?
                    (fun t => pyLower t.name == "ready for verification") = some t →
                calls = [.putField jira_id "customfield_10097" version,
                         .getTransitions jira_id,
                         .postTransition jira_id t.id])) := by
  constructor
  · intro hne
    have hb : (pyLower issue_type != "bug") = true := by
      simpa [bne_iff_ne] using hne
    simp only [Parse2.update_jira_delivery_and_status, hcfg, Bool.false_eq_true,
      if_false, hb, if_true]
  · intro heq
    have hb : (pyLower issue_type != "bug") = false := by
      simp [bne_iff_ne, heq]
    simp only [Parse2.update_jira_delivery_and_status, hcfg, Bool.false_eq_true,
      if_false, hb]
    by_cases hts : w.transitionsStatus = 200
    · have hcond : (w.transitionsStatus != 200) = false := by
        simp [bne_iff_ne, hts]
      simp only [hcond, Bool.false_eq_true, if_false]
      cases hf : w.transitions.find? (fun t => pyLower t.name == "ready for verification") with
      | none =>
          refine ⟨_, rfl, rfl, by simp, ?_, ?_⟩
          · intro tid hmem
            simp at hmem
          · intro _ t ht
            cases ht
      | some t0 =>
          refine ⟨_, rfl, rfl, by simp, ?_, ?_⟩
          · intro tid hmem
            simp only [List.append_assoc, List.mem_append, List.mem_singleton] at hmem
            rcases hmem with h | h | h
            · simp at h
            · simp at h
            · have hid : tid = t0.id := by
                simpa using h
              subst hid
              refine ⟨hts, t0, List.mem_of_find?_eq_some hf, rfl, ?_⟩
              have := List.find?_some hf
              simpa using this
          · intro _ t ht
            cases ht
            rfl
    · have hcond : (w.transitionsStatus != 200) = true := by
        simpa [bne_iff_ne] using hts
      simp only [hcond, if_true]
      refine ⟨_, rfl, rfl, by simp, ?_, ?_⟩
      · intro tid hmem
        simp at hmem
      · intro h200
        exact absurd h200 hts

theorem claim_c3_witness :
    Parse2.update_jira_delivery_and_status ⟨some "https://j", some "e", some "t"⟩
        ⟨204, 200, [⟨"71", "Ready for Verification"⟩], 204⟩ "ESS-1234" "1.2.3" "Task"
      = .ok [.putField "ESS-1234" "customfield_10097" "1.2.3"]
    ∧ Parse2.update_jira_delivery_and_status ⟨some "https://j", some "e", some "t"⟩
        ⟨204, 200, [⟨"71", "Ready for Verification"⟩], 204⟩ "ESS-1234" "1.2.3" "BUG"
      = .ok [.putField "ESS-1234" "customfield_10097" "1.2.3",
             .getTransitions "ESS-1234",
             .postTransition "ESS-1234" "71"] := by
  constructor
  · exact (claim_c3 ⟨some "https://j", some "e", some "t"⟩
      ⟨204, 200, [⟨"71", "Ready for Verification"⟩], 204⟩ "ESS-1234" "1.2.3" "Task" rfl).1
      (by decide)
  · obtain ⟨calls, hc, -, -, -, hpos⟩ := (claim_c3 ⟨some "https://j", some "e", some "t"⟩
      ⟨204, 200, [⟨"71", "Ready for Verification"⟩], 204⟩ "ESS-1234" "1.2.3" "BUG" rfl).2
      (by decide)
    rw [hpos rfl ⟨"71", "Ready for Verification"⟩ (by decide)] at hc
    exact hc

/-! ## Claim about the Issue Detail Fetcher failure path (C4) -/

/-- Claim C4: with complete configuration, a non-200 response makes both
cited `get_jira_details` variants return (not raise) a synthetic record whose
title is `"(Error <status>)"` and whose every other detail field is the
em-dash sentinel; and the batch loop over the sorted references therefore
processes every reference, yielding one synthetic record per failing fetch. -/
theorem claim_c4 (cfg : JiraConfig) (resp : HttpResponse) (jira_id : String)
    (world : String → HttpResponse) (ids : List String)
    (hcfg : envMissing cfg = false) (hstatus : resp.status ≠ 200)
    (hworld : ∀ i ∈ ids, (world i).status ≠ 200) :
    JiraChangelogProcessor.get_jira_details cfg resp jira_id
      = .ok ({ url := cfg.url.getD "" ++ "/rest/api/3/issue/" ++ jira_id,
               email := cfg.email.getD "", token := cfg.token.getD "" },
             { jira := jira_id,
               title := .str ("(Error " ++ toString resp.status ++ ")"),
               status := .str "—", pre_change := .str "—", post_change := .str "—",
               include_in_release_notes := .str "—" })
    ∧ Parse2.get_jira_details cfg resp jira_id
      = .ok ({ url := cfg.url.getD "" ++ "/rest/api/3/issue/" ++ jira_id,
               email := cfg.email.getD "", token := cfg.token.getD "" },
             { jira := jira_id,
               title := .str ("(Error " ++ toString resp.status ++ ")"),
               status := .str "—", type := .str "—",
               pre_change := .str "—", post_change := .str "—",
               include_in_release_notes := .str "—" })
    ∧ JiraChangelogProcessor.processBatch cfg world ids
      = .ok (ids.map (fun i =>
          { jira := i,
            title := .str ("(Error " ++ toString (world i).status ++ ")"),
            status := .str "—", pre_change := .str "—", post_change := .str "—",
            include_in_release_notes := .str "—" })) := by
  have hs : (resp.status != 200) = true := by simpa [bne_iff_ne] using hstatus
  refine ⟨?_, ?_, ?_⟩
  · simp only [JiraChangelogProcessor.get_jira_details, hcfg, Bool.false_eq_true,
      if_false, hs, if_true]
  · simp only [Parse2.get_jira_details, hcfg, Bool.false_eq_true,
      if_false, hs, if_true]
  · induction ids with
    | nil => simp [JiraChangelogProcessor.processBatch]
    | cons i rest ih =>
        have hi : ((world i).status != 200) = true := by
          simpa [bne_iff_ne] using hworld i (List.mem_cons_self i rest)
        have hrest := ih (fun j hj => hworld j (List.mem_cons_of_mem i hj))
        simp only [JiraChangelogProcessor.processBatch,
          JiraChangelogProcessor.get_jira_details, hcfg, Bool.false_eq_true,
          if_false, hi, if_true, hrest, List.map_cons]

theorem claim_c4_witness :
    JiraChangelogProcessor.processBatch ⟨some "https://j", some "e", some "t"⟩
        (fun _ => ⟨404, JsonVal.null⟩) ["DOPS-1111", "ESS-0002"]
      = .ok [{ jira := "DOPS-1111", title := .str "(Error 404)",
               status := .str "—", pre_change := .str "—", post_change := .str "—",
               include_in_release_notes := .str "—" },
             { jira := "ESS-0002", title := .str "(Error 404)",
               status := .str "—", pre_change := .str "—", post_change := .str "—",
               include_in_release_notes := .str "—" }] :=
  (claim_c4 ⟨some "https://j", some "e", some "t"⟩ ⟨404, JsonVal.null⟩ "ESS-0001"
    (fun _ => ⟨404, JsonVal.null⟩) ["DOPS-1111", "ESS-0002"] rfl (by decide)
    (fun i _ => (by decide : (404 : Nat) ≠ 200))).2.2

/-! ## Claim about missing configuration (C7) -/

/-- Claim C7, amended: all three `get_jira_details` variants
(`parse_jira_titles.py`, `jira_changelog_processor.py`, `parse2.py`) guard on
the three environment variables and fail with the missing-configuration error
when any of them is absent or empty — the error result carries no request, so
no network access happens.  (The `fetch_jira_title` variant of
`extract_jira_titles.py` performs no such check; see the counterexample.) -/
theorem claim_c7_amended (cfg : JiraConfig) (resp : HttpResponse) (jira_id : String)
    (hmiss : envMissing cfg = true) :
    ParseJiraTitles.get_jira_details cfg resp jira_id = .error .missingConfig
    ∧ JiraChangelogProcessor.get_jira_details cfg resp jira_id = .error .missingConfig
    ∧ Parse2.get_jira_details cfg resp jira_id = .error .missingConfig := by
  refine ⟨?_, ?_, ?_⟩
  · simp only [ParseJiraTitles.get_jira_details, hmiss, if_true]
  · simp only [JiraChangelogProcessor.get_jira_details, hmiss, if_true]
  · simp only [Parse2.get_jira_details, hmiss, if_true]

theorem claim_c7_amended_witness :
    envMissing ⟨none, some "e", some "t"⟩ = true
    ∧ ParseJiraTitles.get_jira_details ⟨none, some "e", some "t"⟩
        ⟨200, JsonVal.null⟩ "ESS-1234" = .error .missingConfig
    ∧ JiraChangelogProcessor.get_jira_details ⟨none, some "e", some "t"⟩
        ⟨200, JsonVal.null⟩ "ESS-1234" = .error .missingConfig
    ∧ Parse2.get_jira_details ⟨none, some "e", some "t"⟩
        ⟨200, JsonVal.null⟩ "ESS-1234" = .error .missingConfig :=
  ⟨rfl,
   (claim_c7_amended ⟨none, some "e", some "t"⟩ ⟨200, JsonVal.null⟩ "ESS-1234" rfl).1,
   (claim_c7_amended ⟨none, some "e", some "t"⟩ ⟨200, JsonVal.null⟩ "ESS-1234" rfl).2.1,
   (claim_c7_amended ⟨none, some "e", some "t"⟩ ⟨200, JsonVal.null⟩ "ESS-1234" rfl).2.2⟩

/-- Claim C7 fails on `fetch_jira_title` (`extract_jira_titles.py`): with all
three environment variables absent it does not fail fast — it builds the URL
from the `"None"`-rendered placeholder and issues the network request, and
its result is not a missing-configuration error. -/
theorem claim_c7_counterexample :
    (ExtractJiraTitles.fetch_jira_title ⟨none, none, none⟩ ⟨404, JsonVal.null⟩ "ESS-1234").1
      = { url := "None/rest/api/3/issue/ESS-1234", email := none, token := none }
    ∧ (ExtractJiraTitles.fetch_jira_title ⟨none, none, none⟩ ⟨404, JsonVal.null⟩ "ESS-1234").2
      ≠ .error .missingConfig := by
  constructor
  · decide
  · intro h
    rw [show (ExtractJiraTitles.fetch_jira_title ⟨none, none, none⟩
        ⟨404, JsonVal.null⟩ "ESS-1234").2 = Except.ok none from rfl] at h
    cases h

/-! ## Claim about empty-input handling of the orchestrators (C8) -/

/-- Claim C8, amended: with zero discovered references, the
`parse_jira_titles.py` and `parse2.py` orchestrators write their fixed
placeholder line and exit 0 without fetching, and the per-file
`extract_jira_titles.py` processor writes its placeholder bullet; the
`jira_changelog_processor.py` orchestrator instead exits 0 without writing
the output file at all (see the counterexample). -/
theorem claim_c8_amended (cfg : JiraConfig)
    (fetchN : String → ParseJiraTitles.IssueDetail)
    (fetchT : String → Parse2.IssueDetail)
    (fetchP : String → JiraChangelogProcessor.IssueDetail)
    (upd : String → JsonVal → List Parse2.JiraCall)
    (fetchF : String → Option String) (content : String) :
    ParseJiraTitles.mainRun cfg fetchN []
      = { outputContent := some "_No Jira issues found in changelogs._\n",
          fetchedIds := [], exitCode := some 0 }
    ∧ Parse2.mainRun cfg fetchT upd []
      = ({ outputContent := some "_No Jira issues found in changelogs._\n",
           fetchedIds := [], exitCode := some 0 }, [])
    ∧ (ExtractJiraTitles.extract_jira_ids content = [] →
        ExtractJiraTitles.process_changelog_file fetchF content
          = "- No Jira issues found.\n")
    ∧ JiraChangelogProcessor.mainRun cfg fetchP []
      = { outputContent := none, fetchedIds := [], exitCode := some 0 } := by
  refine ⟨rfl, rfl, ?_, rfl⟩
  intro hempty
  simp [ExtractJiraTitles.process_changelog_file, hempty]

theorem claim_c8_witness :
    ExtractJiraTitles.extract_jira_ids "only words, no references" = []
    ∧ ExtractJiraTitles.process_changelog_file (fun _ => none) "only words, no references"
        = "- No Jira issues found.\n"
    ∧ ParseJiraTitles.mainRun ⟨some "https://j", some "e", some "t"⟩
        (fun j => ⟨j, .null, .null, .null, .null⟩) []
      = { outputContent := some "_No Jira issues found in changelogs._\n",
          fetchedIds := [], exitCode := some 0 } :=
  ⟨by decide,
   (claim_c8_amended ⟨some "https://j", some "e", some "t"⟩
      (fun j => ⟨j, .null, .null, .null, .null⟩)
      (fun j => ⟨j, .null, .null, .null, .null, .null, .null⟩)
      (fun j => ⟨j, .null, .null, .null, .null, .null⟩)
      (fun _ _ => []) (fun _ => none) "only words, no references").2.2.1 (by decide),
   (claim_c8_amended ⟨some "https://j", some "e", some "t"⟩
      (fun j => ⟨j, .null, .null, .null, .null⟩)
      (fun j => ⟨j, .null, .null, .null, .null, .null, .null⟩)
      (fun j => ⟨j, .null, .null, .null, .null, .null⟩)
      (fun _ _ => []) (fun _ => none) "x").1⟩

/-- Claim C8 fails on `jira_changelog_processor.py`: with zero discovered
references its `main` prints a notice and exits 0 without writing anything to
the output file — no placeholder line is produced. -/
theorem claim_c8_counterexample :
    (JiraChangelogProcessor.mainRun ⟨some "https://j", some "e", some "t"⟩
        (fun j => ⟨j, .null, .null, .null, .null, .null⟩) []).outputContent = none := rfl

/-! ## Claim about the component-version table generator (C9) -/

theorem lexLt_asymm : ∀ (a b : List Char),
    lexLt a b = true → lexLt b a = true → False
  | [], [], h, _ => by simp [lexLt] at h
  | [], _ :: _, _, h2 => by simp [lexLt] at h2
  | _ :: _, [], h1, _ => by simp [lexLt] at h1
  | x :: xs, y :: ys, h1, h2 => by
      simp only [lexLt] at h1 h2
      by_cases hxy : x.toNat < y.toNat
      · rw [if_neg (by omega : ¬ y.toNat < x.toNat), if_pos hxy] at h2
        simp at h2
      · by_cases hyx : y.toNat < x.toNat
        · rw [if_neg hxy, if_pos hyx] at h1
          simp at h1
        · rw [if_neg hxy, if_neg hyx] at h1
          rw [if_neg hyx, if_neg hxy] at h2
          exact lexLt_asymm xs ys h1 h2

theorem lexLt_connex : ∀ (a b : List Char),
    lexLt a b = false → lexLt b a = false → a = b
  | [], [], _, _ => rfl
  | [], _ :: _, h1, _ => by simp [lexLt] at h1
  | _ :: _, [], _, h2 => by simp [lexLt] at h2
  | x :: xs, y :: ys, h1, h2 => by
      simp only [lexLt] at h1 h2
      by_cases hxy : x.toNat < y.toNat
      · rw [if_pos hxy] at h1
        simp at h1
      · by_cases hyx : y.toNat < x.toNat
        · rw [if_pos hyx] at h2
          simp at h2
        · rw [if_neg hxy, if_neg hyx] at h1
          rw [if_neg hyx, if_neg hxy] at h2
          have hchar : x = y := by
            have hn : x.toNat = y.toNat := by omega
            calc x = Char.ofNat x.toNat := (Char.ofNat_toNat x).symm
            _ = Char.ofNat y.toNat := by rw [hn]
            _ = y := Char.ofNat_toNat y
          rw [hchar, lexLt_connex xs ys h1 h2]

theorem lexLt_trans : ∀ (a b c : List Char),
    lexLt a b = true → lexLt b c = true → lexLt a c = true
  | [], [], _, h1, _ => by simp [lexLt] at h1
  | _ :: _, [], _, h1, _ => by simp [lexLt] at h1
  | [], _ :: _, [], _, h2 => by simp [lexLt] at h2
  | [], _ :: _, _ :: _, _, _ => by simp [lexLt]
  | _ :: _, _ :: _, [], _, h2 => by simp [lexLt] at h2
  | x :: xs, y :: ys, z :: zs, h1, h2 => by
      simp only [lexLt] at h1 h2 ⊢
      by_cases hxy : x.toNat < y.toNat
      · by_cases hyz : y.toNat < z.toNat
        · rw [if_pos (by omega : x.toNat < z.toNat)]
        · by_cases hzy : z.toNat < y.toNat
          · rw [if_neg hyz, if_pos hzy] at h2
            simp at h2
          · rw [if_pos (by omega : x.toNat < z.toNat)]
      · by_cases hyx : y.toNat < x.toNat
        · rw [if_neg hxy, if_pos hyx] at h1
          simp at h1
        · by_cases hyz : y.toNat < z.toNat
          · rw [if_pos (by omega : x.toNat < z.toNat)]
          · by_cases hzy : z.toNat < y.toNat
            · rw [if_neg hyz, if_pos hzy] at h2
              simp at h2
            · rw [if_neg hxy, if_neg hyx] at h1
              rw [if_neg hyz, if_neg hzy] at h2
              rw [if_neg (by omega : ¬ x.toNat < z.toNat),
                if_neg (by omega : ¬ z.toNat < x.toNat)]
              exact lexLt_trans xs ys zs h1 h2

theorem pairLe_total (a b : String × String) :
    GenerateComponentTable.pairLe a b = true ∨ GenerateComponentTable.pairLe b a = true := by
  unfold GenerateComponentTable.pairLe
  by_cases h1 : lexLt a.1.data b.1.data = true
  · left
    simp [h1]
  · by_cases h2 : lexLt b.1.data a.1.data = true
    · right
      simp [h2]
    · have hd : a.1.data = b.1.data := lexLt_connex a.1.data b.1.data
        (by simpa using h1) (by simpa using h2)
      have hkey : a.1 = b.1 := congrArg String.mk hd
      by_cases hv : lexLt b.2.data a.2.data = true
      · right
        have hv' : lexLt a.2.data b.2.data = false := by
          by_contra hx
          exact lexLt_asymm _ _ (by simpa using hx) hv
        simp [hkey, hv']
      · left
        simp only [Bool.not_eq_true] at hv
        simp [hkey, hv]

theorem pairLe_trans (a b c : String × String) :
    GenerateComponentTable.pairLe a b = true → GenerateComponentTable.pairLe b c = true →
    GenerateComponentTable.pairLe a c = true := by
  unfold GenerateComponentTable.pairLe
  intro h1 h2
  simp only [Bool.or_eq_true, Bool.and_eq_true, beq_iff_eq, Bool.not_eq_true'] at h1 h2 ⊢
  rcases h1 with h1 | ⟨hk1, hv1⟩
  · rcases h2 with h2 | ⟨hk2, hv2⟩
    · exact Or.inl (lexLt_trans _ _ _ h1 h2)
    · rw [← hk2]
      exact Or.inl h1
  · rcases h2 with h2 | ⟨hk2, hv2⟩
    · rw [hk1]
      exact Or.inl h2
    · refine Or.inr ⟨hk1.trans hk2, ?_⟩
      by_contra hx
      simp only [Bool.not_eq_false] at hx
      by_cases hcb : lexLt c.2.data b.2.data = true
      · simp [hcb] at hv2
      · have hab : lexLt b.2.data a.2.data = true ∨ b.2.data = a.2.data := by
          by_cases hba : lexLt b.2.data a.2.data = true
          · exact Or.inl hba
          · exact Or.inr (lexLt_connex b.2.data a.2.data (by simpa using hba)
              (by
                by_contra hy
                simp only [Bool.not_eq_false] at hy
                exact absurd (lexLt_trans _ _ _ hx hy) (by simpa using hcb)))
        rcases hab with hab | hab
        · simp [hab] at hv1
        · rw [← hab] at hx
          exact absurd hx (by simpa using hcb)

theorem insertLe_perm {α : Type} (le : α → α → Bool) (a : α) :
    ∀ l : List α, (insertLe le a l).Perm (a :: l)
  | [] => List.Perm.refl _
  | b :: bs => by
      by_cases h : le a b = true
      · simp [insertLe, h]
      · simp only [insertLe, h, if_false]
        exact ((insertLe_perm le a bs).cons b).trans (List.Perm.swap a b bs)

theorem sortLe_perm {α : Type} (le : α → α → Bool) :
    ∀ l : List α, (sortLe le l).Perm l
  | [] => List.Perm.refl _
  | a :: as =>
      (insertLe_perm le a (sortLe le as)).trans ((sortLe_perm le as).cons a)

theorem insertLe_pairwise {α : Type} (le : α → α → Bool)
    (htrans : ∀ x y z, le x y = true → le y z = true → le x z = true)
    (htot : ∀ x y, le x y = true ∨ le y x = true) (a : α) :
    ∀ l : List α, l.Pairwise (fun x y => le x y = true) →
      (insertLe le a l).Pairwise (fun x y => le x y = true)
  | [], _ => by simp [insertLe]
  | b :: bs, h => by
      rcases List.pairwise_cons.mp h with ⟨hb, hbs⟩
      by_cases hab : le a b = true
      · simp only [insertLe, hab, if_true]
        refine List.pairwise_cons.mpr ⟨?_, h⟩
        intro x hx
        rcases List.mem_cons.mp hx with hx | hx
        · rw [hx]
          exact hab
        · exact htrans a b x hab (hb x hx)
      · simp only [insertLe, hab, if_false]
        refine List.pairwise_cons.mpr ⟨?_, insertLe_pairwise le htrans htot a bs hbs⟩
        intro x hx
        rcases List.mem_cons.mp ((insertLe_perm le a bs).mem_iff.mp hx) with hx | hx
        · rw [hx]
          rcases htot b a with hba | hba
          · exact hba
          · exact absurd hba hab
        · exact hb x hx

theorem sortLe_pairwise {α : Type} (le : α → α → Bool)
    (htrans : ∀ x y z, le x y = true → le y z = true → le x z = true)
    (htot : ∀ x y, le x y = true ∨ le y x = true) :
    ∀ l : List α, (sortLe le l).Pairwise (fun x y => le x y = true)
  | [] => List.Pairwise.nil
  | a :: as => insertLe_pairwise le htrans htot a (sortLe le as)
      (sortLe_pairwise le htrans htot as)

/-- Claim C9 fails on the label derivation: `str.replace` removes every
occurrence of `"nms_"` and `"_version"`, not just a leading prefix and a
trailing suffix.  For the key `"foo_nms_bar"` (no `"nms_"` prefix, no
`"_version"` suffix) the generator's label is `"Foo Bar"`, while the
claim-described derivation preserves the interior characters and yields
`"Foo Nms Bar"`. -/
theorem claim_c9_counterexample :
    GenerateComponentTable.componentLabel "foo_nms_bar" = "Foo Bar"
    ∧ GenerateComponentTable.componentLabelSpec "foo_nms_bar" = "Foo Nms Bar"
    ∧ GenerateComponentTable.componentLabel "foo_nms_bar"
      ≠ GenerateComponentTable.componentLabelSpec "foo_nms_bar" := by
  refine ⟨by decide, by decide, by decide⟩

/-- Claim C9, amended: the generator emits one row per manifest entry, in
order sorted by key (then value, Python's tuple order) — a permutation of the
entries — and derives each row's label by removing every occurrence of the
substring `"nms_"`, then every occurrence of `"_version"`, replacing the
remaining underscores with spaces and title-casing; in particular
`"nms_kafka_version"` renders as `"Kafka"`, while an interior occurrence is
also removed (`"foo_nms_bar"` renders as `"Foo Bar"`). -/
theorem claim_c9_amended :
    (∀ data : List (String × String),
      GenerateComponentTable.generate_table data
        = String.intercalate "\n"
            (GenerateComponentTable.tableHeaderLines
              ++ (sortLe GenerateComponentTable.pairLe data).map (fun kv =>
                    "<tr><td>" ++ GenerateComponentTable.componentLabel kv.1
                      ++ "</td><td>" ++ kv.2 ++ "</td></tr>")
              ++ ["</table>"])
      ∧ (sortLe GenerateComponentTable.pairLe data).Pairwise
          (fun a b => GenerateComponentTable.pairLe a b = true)
      ∧ (sortLe GenerateComponentTable.pairLe data).Perm data)
    ∧ GenerateComponentTable.componentLabel "nms_kafka_version" = "Kafka"
    ∧ GenerateComponentTable.componentLabel "foo_nms_bar" = "Foo Bar" := by
  refine ⟨fun data => ⟨rfl, ?_, sortLe_perm _ data⟩, by decide, by decide⟩
  exact sortLe_pairwise GenerateComponentTable.pairLe pairLe_trans pairLe_total data

/-! ## Claims about the rich-text flattener (C5, C6) -/

/-- Shape test for a `content` value that Python cannot iterate. -/
def isScalarJson : JsonVal → Bool
  | .null => true
  | .bool _ => true
  | .num _ => true
  | _ => false

theorem extract_obj_text (fs : List (String × JsonVal)) (ht : typeIsText fs = true) :
    extract_text_from_adf (.obj fs) = some ((getField fs "text").getD (.str "")) := by
  simp only [extract_text_from_adf, ht, if_true]

theorem extract_obj_content_arr (fs : List (String × JsonVal)) (xs : List JsonVal)
    (hnt : typeIsText fs = false) (hc : getField fs "content" = some (.arr xs)) :
    extract_text_from_adf (.obj fs) = (extractJoin xs).map .str := by
  simp only [extract_text_from_adf, hnt, Bool.false_eq_true, if_false]
  split
  · rename_i xs' heq
    rw [hc] at heq
    cases heq
    rfl
  · rename_i gs' heq
    rw [hc] at heq
    cases heq
  · rename_i t' heq
    rw [hc] at heq
    cases heq
  · rename_i v hne1 hne2 hne3 heq
    rw [hc] at heq
    cases heq
    exact absurd rfl (hne1 xs)
  · rename_i heq
    rw [hc] at heq
    cases heq

theorem extract_obj_content_obj (fs gs : List (String × JsonVal))
    (hnt : typeIsText fs = false) (hc : getField fs "content" = some (.obj gs)) :
    extract_text_from_adf (.obj fs)
      = some (.str (String.join (gs.map (fun _ => "")))) := by
  simp only [extract_text_from_adf, hnt, Bool.false_eq_true, if_false]
  split
  · rename_i xs' heq
    rw [hc] at heq
    cases heq
  · rename_i gs' heq
    rw [hc] at heq
    cases heq
    rfl
  · rename_i t' heq
    rw [hc] at heq
    cases heq
  · rename_i v hne1 hne2 hne3 heq
    rw [hc] at heq
    cases heq
    exact absurd rfl (hne2 gs)
  · rename_i heq
    rw [hc] at heq
    cases heq

theorem extract_obj_content_str (fs : List (String × JsonVal)) (t : String)
    (hnt : typeIsText fs = false) (hc : getField fs "content" = some (.str t)) :
    extract_text_from_adf (.obj fs)
      = some (.str (String.join (t.data.map (fun _ => "")))) := by
  simp only [extract_text_from_adf, hnt, Bool.false_eq_true, if_false]
  split
  · rename_i xs' heq
    rw [hc] at heq
    cases heq
  · rename_i gs' heq
    rw [hc] at heq
    cases heq
  · rename_i t' heq
    rw [hc] at heq
    cases heq
    rfl
  · rename_i v hne1 hne2 hne3 heq
    rw [hc] at heq
    cases heq
    exact absurd rfl (hne3 t)
  · rename_i heq
    rw [hc] at heq
    cases heq

theorem extract_obj_content_scalar (fs : List (String × JsonVal)) (v : JsonVal)
    (hnt : typeIsText fs = false) (hc : getField fs "content" = some v)
    (hv : isScalarJson v = true) :
    extract_text_from_adf (.obj fs) = none := by
  simp only [extract_text_from_adf, hnt, Bool.false_eq_true, if_false]
  split
  · rename_i xs' heq
    rw [hc] at heq
    cases heq
    simp [isScalarJson] at hv
  · rename_i gs' heq
    rw [hc] at heq
    cases heq
    simp [isScalarJson] at hv
  · rename_i t' heq
    rw [hc] at heq
    cases heq
    simp [isScalarJson] at hv
  · rfl
  · rename_i heq
    rw [hc] at heq
    cases heq

theorem extract_obj_content_none (fs : List (String × JsonVal))
    (hnt : typeIsText fs = false) (hc : getField fs "content" = none) :
    extract_text_from_adf (.obj fs) = some (.str "") := by
  simp only [extract_text_from_adf, hnt, Bool.false_eq_true, if_false]
  split
  · rename_i xs' heq
    rw [hc] at heq
    cases heq
  · rename_i gs' heq
    rw [hc] at heq
    cases heq
  · rename_i t' heq
    rw [hc] at heq
    cases heq
  · rename_i v hne1 hne2 hne3 heq
    rw [hc] at heq
    cases heq
  · rfl

theorem adfTextSpec_obj (fs : List (String × JsonVal)) :
    adfTextSpec (.obj fs)
      = (if typeIsText fs then
           match getField fs "text" with
           | some (.str s) => s
           | _ => ""
         else "")
        ++ (match getField fs "content" with
            | some (.arr xs) => adfTextSpecList xs
            | _ => "") := by
  simp only [adfTextSpec]
  congr 1
  split
  · rename_i xs' heq
    rw [heq]
  · rename_i hne
    cases hx : getField fs "content" with
    | none => rfl
    | some v =>
        cases v with
        | arr xs => exact ((hne xs hx).elim)
        | null => rfl
        | bool b => rfl
        | num n => rfl
        | str s => rfl
        | obj gs => rfl

theorem isADF_obj_text (fs : List (String × JsonVal)) (ht : typeIsText fs = true) :
    isADF (.obj fs)
      = ((match getField fs "text" with
          | some (.str _) => true
          | _ => false)
          && (getField fs "content").isNone) := by
  simp only [isADF, ht, if_true]

theorem isADF_obj_content_arr (fs : List (String × JsonVal)) (xs : List JsonVal)
    (hnt : typeIsText fs = false) (hc : getField fs "content" = some (.arr xs)) :
    isADF (.obj fs) = isADFList xs := by
  simp only [isADF, hnt, Bool.false_eq_true, if_false]
  split
  · rename_i xs' heq
    rw [hc] at heq
    cases heq
    rfl
  · rename_i v hne heq
    rw [hc] at heq
    cases heq
    exact absurd rfl (hne xs)
  · rename_i heq
    rw [hc] at heq
    cases heq

theorem isADF_obj_content_other (fs : List (String × JsonVal)) (v : JsonVal)
    (hnt : typeIsText fs = false) (hc : getField fs "content" = some v)
    (hv : ∀ xs, v ≠ .arr xs) :
    isADF (.obj fs) = false := by
  simp only [isADF, hnt, Bool.false_eq_true, if_false]
  split
  · rename_i xs' heq
    rw [hc] at heq
    cases heq
    exact absurd rfl (hv xs')
  · rfl
  · rename_i heq
    rw [hc] at heq
    cases heq

theorem adfSafe_obj_text (fs : List (String × JsonVal)) (ht : typeIsText fs = true) :
    adfSafe (.obj fs)
      = (match getField fs "text" with
         | some (.str _) => true
         | none => true
         | _ => false) := by
  simp only [adfSafe, ht, if_true]

theorem adfSafe_obj_content_arr (fs : List (String × JsonVal)) (xs : List JsonVal)
    (hnt : typeIsText fs = false) (hc : getField fs "content" = some (.arr xs)) :
    adfSafe (.obj fs) = adfSafeList xs := by
  simp only [adfSafe, hnt, Bool.false_eq_true, if_false]
  split
  · rename_i xs' heq
    rw [hc] at heq
    cases heq
    rfl
  · rename_i gs' heq
    rw [hc] at heq
    cases heq
  · rename_i t' heq
    rw [hc] at heq
    cases heq
  · rename_i v hne1 hne2 hne3 heq
    rw [hc] at heq
    cases heq
    exact absurd rfl (hne1 xs)
  · rename_i heq
    rw [hc] at heq
    cases heq

theorem adfSafe_obj_content_scalar (fs : List (String × JsonVal)) (v : JsonVal)
    (hnt : typeIsText fs = false) (hc : getField fs "content" = some v)
    (hv : isScalarJson v = true) :
    adfSafe (.obj fs) = false := by
  simp only [adfSafe, hnt, Bool.false_eq_true, if_false]
  split
  · rename_i xs' heq
    rw [hc] at heq
    cases heq
    simp [isScalarJson] at hv
  · rename_i gs' heq
    rw [hc] at heq
    cases heq
    simp [isScalarJson] at hv
  · rename_i t' heq
    rw [hc] at heq
    cases heq
    simp [isScalarJson] at hv
  · rfl
  · rename_i heq
    rw [hc] at heq
    cases heq

theorem isADF_obj_content_none (fs : List (String × JsonVal))
    (hnt : typeIsText fs = false) (hc : getField fs "content" = none) :
    isADF (.obj fs) = true := by
  simp only [isADF, hnt, Bool.false_eq_true, if_false]
  split <;> simp_all

theorem adfSafe_obj_content_str (fs : List (String × JsonVal)) (t : String)
    (hnt : typeIsText fs = false) (hc : getField fs "content" = some (.str t)) :
    adfSafe (.obj fs) = true := by
  simp only [adfSafe, hnt, Bool.false_eq_true, if_false]
  split <;> simp_all

/-- Claim C5: on well-formed rich-text (ADF) input, the flattener returns
exactly the concatenation, in document order, of the text of all nodes whose
type discriminator is "text", recursing through every `content` list and
through top-level lists (`adfTextSpec`); in particular it never raises there. -/
theorem claim_c5 :
    ∀ v : JsonVal, isADF v = true →
      extract_text_from_adf v = some (.str (adfTextSpec v)) := by
  refine extract_text_from_adf.induct
    (fun v => isADF v = true → extract_text_from_adf v = some (.str (adfTextSpec v)))
    (fun xs => isADFList xs = true → extractJoin xs = some (adfTextSpecList xs))
    ?_ ?_ ?_ ?_ ?_ ?_ ?_ ?_ ?_ ?_ ?_
  · intro fs ht hADF
    rw [isADF_obj_text fs ht] at hADF
    simp only [Bool.and_eq_true, Option.isNone_iff_eq_none] at hADF
    obtain ⟨htext, hcont⟩ := hADF
    cases hx : getField fs "text" with
    | none => rw [hx] at htext; simp at htext
    | some v =>
        cases v with
        | str s =>
            rw [extract_obj_text fs ht, hx, adfTextSpec_obj, ht, hx, hcont]
            simp
        | null => rw [hx] at htext; simp at htext
        | bool b => rw [hx] at htext; simp at htext
        | num n => rw [hx] at htext; simp at htext
        | arr xs => rw [hx] at htext; simp at htext
        | obj gs => rw [hx] at htext; simp at htext
  · intro fs hnt xs hc ih hADF
    have hnt' : typeIsText fs = false := by simpa using hnt
    rw [isADF_obj_content_arr fs xs hnt' hc] at hADF
    rw [extract_obj_content_arr fs xs hnt' hc, ih hADF, adfTextSpec_obj, hnt', hc]
    simp
  · intro fs hnt gs hc hADF
    have hnt' : typeIsText fs = false := by simpa using hnt
    rw [isADF_obj_content_other fs (.obj gs) hnt' hc (by intro xs h; cases h)] at hADF
    cases hADF
  · intro fs hnt t hc hADF
    have hnt' : typeIsText fs = false := by simpa using hnt
    rw [isADF_obj_content_other fs (.str t) hnt' hc (by intro xs h; cases h)] at hADF
    cases hADF
  · intro fs hnt val hne1 hne2 hne3 hc hADF
    have hnt' : typeIsText fs = false := by simpa using hnt
    rw [isADF_obj_content_other fs val hnt' hc (fun xs h => (hne1 xs h).elim)] at hADF
    cases hADF
  · intro fs hnt hc _
    have hnt' : typeIsText fs = false := by simpa using hnt
    rw [extract_obj_content_none fs hnt' hc, adfTextSpec_obj, hnt', hc]
    simp
  · intro xs ih hADF
    simp only [isADF] at hADF
    simp only [extract_text_from_adf, adfTextSpec, ih hADF] <;> rfl
  · intro x hne1 hne2 hADF
    cases x with
    | obj fs => exact absurd rfl (hne1 fs)
    | arr xs => exact absurd rfl (hne2 xs)
    | null => simp [isADF] at hADF
    | bool b => simp [isADF] at hADF
    | num n => simp [isADF] at hADF
    | str s => simp [isADF] at hADF
  · intro _
    simp [extractJoin, adfTextSpecList]
  · intro v vs t he ih1 ih2 hADF
    simp only [isADFList, Bool.and_eq_true] at hADF
    obtain ⟨hv, hvs⟩ := hADF
    have hveq := ih1 hv
    rw [he] at hveq
    have ht : t = adfTextSpec v := by
      simpa using hveq
    simp only [extractJoin, he, ih2 hvs, adfTextSpecList, ht] <;> rfl
  · intro v vs hne ih1 hADF
    simp only [isADFList, Bool.and_eq_true] at hADF
    exact absurd (ih1 hADF.1) (hne (adfTextSpec v))

theorem claim_c5_witness :
    isADF (.obj [("type", .str "doc"),
      ("content", .arr [.obj [("type", .str "text"), ("text", .str "A")],
                        .obj [("type", .str "text"), ("text", .str "B")]])]) = true
    ∧ extract_text_from_adf (.obj [("type", .str "doc"),
        ("content", .arr [.obj [("type", .str "text"), ("text", .str "A")],
                          .obj [("type", .str "text"), ("text", .str "B")]])])
      = some (.str "AB")
    ∧ extract_text_from_adf (.obj []) = some (.str "") := by
  have h1 : isADF (.obj [("type", .str "text"), ("text", .str "A")]) = true := by
    rw [isADF_obj_text [("type", .str "text"), ("text", .str "A")] rfl]
    rfl
  have h2 : isADF (.obj [("type", .str "text"), ("text", .str "B")]) = true := by
    rw [isADF_obj_text [("type", .str "text"), ("text", .str "B")] rfl]
    rfl
  have hadf : isADF (.obj [("type", .str "doc"),
      ("content", .arr [.obj [("type", .str "text"), ("text", .str "A")],
                        .obj [("type", .str "text"), ("text", .str "B")]])]) = true := by
    rw [isADF_obj_content_arr [("type", .str "doc"),
      ("content", .arr [.obj [("type", .str "text"), ("text", .str "A")],
                        .obj [("type", .str "text"), ("text", .str "B")]])]
      [.obj [("type", .str "text"), ("text", .str "A")],
       .obj [("type", .str "text"), ("text", .str "B")]] rfl rfl]
    simp [isADFList, h1, h2]
  have h0 : isADF (.obj []) = true := isADF_obj_content_none [] rfl rfl
  have s1 : adfTextSpec (.obj [("type", .str "text"), ("text", .str "A")]) = "A" := by
    rw [adfTextSpec_obj]
    rfl
  have s2 : adfTextSpec (.obj [("type", .str "text"), ("text", .str "B")]) = "B" := by
    rw [adfTextSpec_obj]
    rfl
  have hspec : adfTextSpec (.obj [("type", .str "doc"),
      ("content", .arr [.obj [("type", .str "text"), ("text", .str "A")],
                        .obj [("type", .str "text"), ("text", .str "B")]])]) = "AB" := by
    rw [adfTextSpec_obj]
    simp [typeIsText, getField, adfTextSpecList, s1, s2] <;> decide
  have hspec0 : adfTextSpec (.obj []) = "" := by
    rw [adfTextSpec_obj]
    rfl
  refine ⟨hadf, ?_, ?_⟩
  · rw [claim_c5 _ hadf, hspec]
  · rw [claim_c5 _ h0, hspec0]

/-- Claim C6 fails: the flattener is not total — a record whose `content`
field holds a non-iterable scalar (here the number 5) makes the Python code
raise `TypeError` while iterating it, modelled by the `none` result. -/
theorem claim_c6_counterexample :
    extract_text_from_adf (.obj [("content", .num 5)]) = none := by
  simp [extract_text_from_adf, typeIsText, getField]

/-- Claim C6, amended: the flattener never fails and returns a string on
every input in which each `content` field holds a list (of such values), a
record or a string — never a null/number/boolean scalar — and each text
node's `text` value, where present, is a string (`adfSafe`); any node of
unrecognised scalar shape contributes the empty string. -/
theorem claim_c6_amended :
    (∀ v : JsonVal, adfSafe v = true →
      ∃ s, extract_text_from_adf v = some (.str s))
    ∧ extract_text_from_adf .null = some (.str "")
    ∧ (∀ b, extract_text_from_adf (.bool b) = some (.str ""))
    ∧ (∀ n : Int, extract_text_from_adf (.num n) = some (.str ""))
    ∧ (∀ s, extract_text_from_adf (.str s) = some (.str "")) := by
  refine ⟨?_, by simp [extract_text_from_adf], fun b => by simp [extract_text_from_adf],
    fun n => by simp [extract_text_from_adf], fun s => by simp [extract_text_from_adf]⟩
  refine extract_text_from_adf.induct
    (fun v => adfSafe v = true → ∃ s, extract_text_from_adf v = some (.str s))
    (fun xs => adfSafeList xs = true → ∃ s, extractJoin xs = some s)
    ?_ ?_ ?_ ?_ ?_ ?_ ?_ ?_ ?_ ?_ ?_
  · intro fs ht hsafe
    rw [adfSafe_obj_text fs ht] at hsafe
    cases hx : getField fs "text" with
    | none =>
        refine ⟨"", ?_⟩
        rw [extract_obj_text fs ht, hx]
        rfl
    | some v =>
        cases v with
        | str s =>
            refine ⟨s, ?_⟩
            rw [extract_obj_text fs ht, hx]
            rfl
        | null => rw [hx] at hsafe; simp at hsafe
        | bool b => rw [hx] at hsafe; simp at hsafe
        | num n => rw [hx] at hsafe; simp at hsafe
        | arr xs => rw [hx] at hsafe; simp at hsafe
        | obj gs => rw [hx] at hsafe; simp at hsafe
  · intro fs hnt xs hc ih hsafe
    have hnt' : typeIsText fs = false := by simpa using hnt
    rw [adfSafe_obj_content_arr fs xs hnt' hc] at hsafe
    obtain ⟨s, hs⟩ := ih hsafe
    refine ⟨s, ?_⟩
    rw [extract_obj_content_arr fs xs hnt' hc, hs]
    rfl
  · intro fs hnt gs hc _
    have hnt' : typeIsText fs = false := by simpa using hnt
    exact ⟨_, extract_obj_content_obj fs gs hnt' hc⟩
  · intro fs hnt t hc _
    have hnt' : typeIsText fs = false := by simpa using hnt
    exact ⟨_, extract_obj_content_str fs t hnt' hc⟩
  · intro fs hnt val hne1 hne2 hne3 hc hsafe
    have hnt' : typeIsText fs = false := by simpa using hnt
    cases val with
    | arr xs => exact absurd rfl (hne1 xs)
    | obj gs => exact absurd rfl (hne2 gs)
    | str t => exact absurd rfl (hne3 t)
    | null =>
        rw [adfSafe_obj_content_scalar fs .null hnt' hc rfl] at hsafe
        cases hsafe
    | bool b =>
        rw [adfSafe_obj_content_scalar fs (.bool b) hnt' hc rfl] at hsafe
        cases hsafe
    | num n =>
        rw [adfSafe_obj_content_scalar fs (.num n) hnt' hc rfl] at hsafe
        cases hsafe
  · intro fs hnt hc _
    have hnt' : typeIsText fs = false := by simpa using hnt
    exact ⟨"", extract_obj_content_none fs hnt' hc⟩
  · intro xs ih hsafe
    simp only [adfSafe] at hsafe
    obtain ⟨s, hs⟩ := ih hsafe
    refine ⟨s, ?_⟩
    simp only [extract_text_from_adf, hs] <;> rfl
  · intro x hne1 hne2 _
    cases x with
    | obj fs => exact absurd rfl (hne1 fs)
    | arr xs => exact absurd rfl (hne2 xs)
    | null => exact ⟨"", by simp [extract_text_from_adf]⟩
    | bool b => exact ⟨"", by simp [extract_text_from_adf]⟩
    | num n => exact ⟨"", by simp [extract_text_from_adf]⟩
    | str s => exact ⟨"", by simp [extract_text_from_adf]⟩
  · intro _
    exact ⟨"", by simp [extractJoin]⟩
  · intro v vs t he _ ih2 hsafe
    simp only [adfSafeList, Bool.and_eq_true] at hsafe
    obtain ⟨s2, hs2⟩ := ih2 hsafe.2
    refine ⟨t ++ s2, ?_⟩
    simp only [extractJoin, he, hs2] <;> rfl
  · intro v vs hne ih1 hsafe
    simp only [adfSafeList, Bool.and_eq_true] at hsafe
    obtain ⟨s, hs⟩ := ih1 hsafe.1
    exact absurd hs (hne s)

theorem claim_c6_amended_witness :
    adfSafe (.obj [("content", .str "zzz")]) = true
    ∧ ∃ s, extract_text_from_adf (.obj [("content", .str "zzz")]) = some (.str s) := by
  have hsafe : adfSafe (.obj [("content", .str "zzz")]) = true :=
    adfSafe_obj_content_str [("content", .str "zzz")] "zzz" rfl rfl
  exact ⟨hsafe, claim_c6_amended.1 _ hsafe⟩

/-! ## Claim about issue-ID extraction (C1) -/

/-- A token of the shape matched by `(?:ESS|NMS|DOPS)` (in the written
alternation order of the regex). -/
def AltOk (p : List Char) : Prop :=
  p = ['E', 'S', 'S'] ∨ p = ['N', 'M', 'S'] ∨ p = ['D', 'O', 'P', 'S']

/-- A word-shaped issue token: project code, hyphen, and 3 or 4 digits. -/
def IsIdTok (tok : List Char) : Prop :=
  ∃ p d, tok = p ++ '-' :: d ∧ AltOk p ∧ (∀ c ∈ d, c.isDigit = true)
    ∧ (d.length = 3 ∨ d.length = 4)

/-- The `\b` boundary before a match, relative to the characters already
scanned: nothing scanned yet, or the last scanned character is non-word. -/
def PrevOk (pw : Bool) (a : List Char) : Prop :=
  (a = [] → pw = false) ∧ (∀ c, a.getLast? = some c → isWordChar c = false)

/-- The `\b` boundary after a match: end of input or a non-word character. -/
def NonWordHead (b : List Char) : Prop :=
  ∀ c, b.head? = some c → isWordChar c = false

theorem boundaryAfterOk_iff (b : List Char) :
    boundaryAfterOk b = true ↔ NonWordHead b := by
  cases b with
  | nil => simp [boundaryAfterOk, NonWordHead]
  | cons c cs => simp [boundaryAfterOk, NonWordHead]

theorem lastElem_mem (l : List Char) (c : Char) (h : l.getLast? = some c) : c ∈ l :=
  List.mem_of_mem_getLast? (by simp [Option.mem_def, h])

theorem lastElem_append (l1 l2 : List Char) (h : l2 ≠ []) :
    (l1 ++ l2).getLast? = l2.getLast? := by
  rw [List.getLast?_append]
  cases hx : l2.getLast? with
  | some c => simp [Option.or]
  | none =>
      rw [List.getLast?_eq_getLast l2 h] at hx
      cases hx

theorem PrevOk_cons (c : Char) (a' : List Char) (pw : Bool) :
    PrevOk pw (c :: a') ↔ PrevOk (isWordChar c) a' := by
  unfold PrevOk
  cases a' with
  | nil =>
      constructor
      · rintro ⟨-, h2⟩
        refine ⟨fun _ => h2 c rfl, ?_⟩
        intro x hx
        simp at hx
      · rintro ⟨h1, -⟩
        refine ⟨fun h => by simp at h, ?_⟩
        intro x hx
        have hcx : c = x := by simpa using hx
        rw [← hcx]
        exact h1 rfl
  | cons a0 a'' =>
      have hlast : (c :: a0 :: a'').getLast? = (a0 :: a'').getLast? :=
        List.getLast?_cons_cons
      constructor
      · rintro ⟨-, h2⟩
        constructor
        · intro h
          simp at h
        · intro x hx
          refine h2 x ?_
          rw [hlast]
          exact hx
      · rintro ⟨-, h2⟩
        constructor
        · intro h
          simp at h
        · intro x hx
          refine h2 x ?_
          rw [hlast] at hx
          exact hx

theorem dropLit_iff : ∀ (p s r : List Char), dropLit p s = some r ↔ s = p ++ r
  | [], s, r => by
      simp only [dropLit, Option.some.injEq, List.nil_append]
  | _ :: _, [], r => by
      simp [dropLit]
  | p :: ps, c :: cs, r => by
      simp only [dropLit]
      by_cases h : p = c
      · subst h
        simp only [beq_self_eq_true, if_true, List.cons_append, List.cons.injEq,
          true_and]
        exact dropLit_iff ps cs r
      · have hb : (p == c) = false := by
          simpa using h
        simp only [hb, Bool.false_eq_true, if_false, List.cons_append]
        constructor
        · intro hx
          cases hx
        · intro hx
          injection hx with h1 _
          exact absurd h1.symm h

theorem takeDigitsN_iff : ∀ (n : Nat) (s d r : List Char),
    takeDigitsN n s = some (d, r)
      ↔ (d.length = n ∧ (∀ c ∈ d, c.isDigit = true) ∧ s = d ++ r)
  | 0, s, d, r => by
      simp only [takeDigitsN, Option.some.injEq, Prod.mk.injEq]
      constructor
      · rintro ⟨h1, h2⟩
        subst h1
        subst h2
        exact ⟨rfl, by simp, rfl⟩
      · rintro ⟨hl, _, hs⟩
        have hd : d = [] := List.length_eq_zero.mp hl
        subst hd
        exact ⟨rfl, by simpa using hs⟩
  | n + 1, [], d, r => by
      simp only [takeDigitsN]
      constructor
      · intro h
        cases h
      · rintro ⟨hl, _, hs⟩
        have : d = [] ∧ r = [] := by
          constructor
          · cases d with
            | nil => rfl
            | cons x xs => cases hs
          · cases d with
            | nil => simpa using hs.symm
            | cons x xs => cases hs
        rw [this.1] at hl
        cases hl
  | n + 1, c :: cs, d, r => by
      simp only [takeDigitsN]
      by_cases hd : c.isDigit = true
      · rw [if_pos hd]
        constructor
        · intro h
          rw [Option.map_eq_some'] at h
          obtain ⟨⟨d', r'⟩, hp, heq⟩ := h
          obtain ⟨hl, hdig, hs⟩ := (takeDigitsN_iff n cs d' r').mp hp
          have hd1 : d = c :: d' := by
            have := congrArg Prod.fst heq
            simpa using this.symm
          have hr1 : r = r' := by
            have := congrArg Prod.snd heq
            simpa using this.symm
          subst hd1
          subst hr1
          refine ⟨by simp [hl], ?_, by simp [hs]⟩
          intro x hx
          rcases List.mem_cons.mp hx with hx | hx
          · rw [hx]
            exact hd
          · exact hdig x hx
        · rintro ⟨hl, hdig, hs⟩
          cases d with
          | nil => cases hl
          | cons d0 d' =>
              rw [List.cons_append] at hs
              injection hs with h1 h2
              subst h1
              rw [Option.map_eq_some']
              refine ⟨(d', r), (takeDigitsN_iff n cs d' r).mpr
                ⟨by simpa using hl, fun x hx => hdig x (List.mem_cons_of_mem _ hx), h2⟩,
                rfl⟩
      · rw [if_neg hd]
        constructor
        · intro h
          cases h
        · rintro ⟨hl, hdig, hs⟩
          cases d with
          | nil => cases hl
          | cons d0 d' =>
              rw [List.cons_append] at hs
              injection hs with h1 _
              subst h1
              exact absurd (hdig c (List.mem_cons_self _ _)) hd

theorem matchAlt_sound (s p r : List Char) (h : matchAlt s = some (p, r)) :
    AltOk p ∧ s = p ++ r := by
  unfold matchAlt at h
  cases h1 : dropLit ['E', 'S', 'S'] s with
  | some r1 =>
      rw [h1] at h
      injection h with h'
      injection h' with hp hr
      subst hp
      subst hr
      exact ⟨Or.inl rfl, (dropLit_iff _ _ _).mp h1⟩
  | none =>
      rw [h1] at h
      cases h2 : dropLit ['N', 'M', 'S'] s with
      | some r2 =>
          rw [h2] at h
          injection h with h'
          injection h' with hp hr
          subst hp
          subst hr
          exact ⟨Or.inr (Or.inl rfl), (dropLit_iff _ _ _).mp h2⟩
      | none =>
          rw [h2] at h
          cases h3 : dropLit ['D', 'O', 'P', 'S'] s with
          | some r3 =>
              rw [h3] at h
              injection h with h'
              injection h' with hp hr
              subst hp
              subst hr
              exact ⟨Or.inr (Or.inr rfl), (dropLit_iff _ _ _).mp h3⟩
          | none =>
              rw [h3] at h
              cases h

theorem matchAlt_complete (p r : List Char) (hp : AltOk p) :
    matchAlt (p ++ r) = some (p, r) := by
  rcases hp with rfl | rfl | rfl
  · rw [show matchAlt (['E', 'S', 'S'] ++ r)
        = (match dropLit ['E', 'S', 'S'] (['E', 'S', 'S'] ++ r) with
           | some r1 => some (['E', 'S', 'S'], r1)
           | none =>
               match dropLit ['N', 'M', 'S'] (['E', 'S', 'S'] ++ r) with
               | some r1 => some (['N', 'M', 'S'], r1)
               | none =>
                   match dropLit ['D', 'O', 'P', 'S'] (['E', 'S', 'S'] ++ r) with
                   | some r1 => some (['D', 'O', 'P', 'S'], r1)
                   | none => none) from rfl,
      (dropLit_iff ['E', 'S', 'S'] (['E', 'S', 'S'] ++ r) r).mpr rfl]
  · have h1 : dropLit ['E', 'S', 'S'] (['N', 'M', 'S'] ++ r) = none := by
      simp [dropLit]
    have h2 : dropLit ['N', 'M', 'S'] (['N', 'M', 'S'] ++ r) = some r :=
      (dropLit_iff _ _ _).mpr rfl
    unfold matchAlt
    rw [h1, h2]
  · have h1 : dropLit ['E', 'S', 'S'] (['D', 'O', 'P', 'S'] ++ r) = none := by
      simp [dropLit]
    have h2 : dropLit ['N', 'M', 'S'] (['D', 'O', 'P', 'S'] ++ r) = none := by
      simp [dropLit]
    have h3 : dropLit ['D', 'O', 'P', 'S'] (['D', 'O', 'P', 'S'] ++ r) = some r :=
      (dropLit_iff _ _ _).mpr rfl
    unfold matchAlt
    rw [h1, h2, h3]

theorem altOk_word {p : List Char} (hp : AltOk p) : ∀ c ∈ p, isWordChar c = true := by
  rcases hp with rfl | rfl | rfl <;> decide

theorem altOk_ne_nil {p : List Char} (hp : AltOk p) : p ≠ [] := by
  rcases hp with rfl | rfl | rfl <;> simp

theorem altOk_head {p : List Char} (hp : AltOk p) :
    ∃ c0 p', p = c0 :: p' ∧ c0.isDigit = false := by
  rcases hp with rfl | rfl | rfl
  · exact ⟨'E', _, rfl, by decide⟩
  · exact ⟨'N', _, rfl, by decide⟩
  · exact ⟨'D', _, rfl, by decide⟩

theorem isWordChar_of_isDigit {c : Char} (h : c.isDigit = true) :
    isWordChar c = true := by
  simp [isWordChar, Char.isAlphanum, h]

theorem tryDigits3_sound (p s2 tok rest : List Char)
    (h : tryDigits3 p s2 = some (tok, rest)) :
    ∃ d, tok = p ++ '-' :: d ∧ (∀ c ∈ d, c.isDigit = true) ∧ d.length = 3
      ∧ s2 = d ++ rest ∧ boundaryAfterOk rest = true := by
  unfold tryDigits3 at h
  cases h3 : takeDigitsN 3 s2 with
  | none =>
      rw [h3] at h
      cases h
  | some dr =>
      obtain ⟨d, r⟩ := dr
      rw [h3] at h
      simp only at h
      by_cases hb : boundaryAfterOk r = true
      · rw [if_pos hb] at h
        injection h with h'
        injection h' with h1 h2
        subst h1
        subst h2
        obtain ⟨hl, hdig, hs⟩ := (takeDigitsN_iff 3 s2 d r).mp h3
        exact ⟨d, rfl, hdig, hl, hs, hb⟩
      · rw [if_neg hb] at h
        cases h

theorem matchId34_sound (s tok rest : List Char)
    (h : matchId34 s = some (tok, rest)) :
    IsIdTok tok ∧ s = tok ++ rest ∧ boundaryAfterOk rest = true := by
  unfold matchId34 at h
  cases hA : matchAlt s with
  | none =>
      rw [hA] at h
      cases h
  | some pr =>
      obtain ⟨p, s1⟩ := pr
      rw [hA] at h
      simp only at h
      obtain ⟨hpok, hs⟩ := matchAlt_sound s p s1 hA
      cases s1 with
      | nil => cases h
      | cons c1 s2 =>
          simp only at h
          by_cases hc : c1 = '-'
          · subst hc
            rw [if_pos rfl] at h
            cases h4 : takeDigitsN 4 s2 with
            | none =>
                rw [h4] at h
                simp only at h
                obtain ⟨d, htok, hdig, hl, hs2, hb⟩ := tryDigits3_sound p s2 tok rest h
                refine ⟨⟨p, d, htok, hpok, hdig, Or.inl hl⟩, ?_, hb⟩
                rw [hs, hs2, htok]
                simp
            | some dr =>
                obtain ⟨d, r⟩ := dr
                rw [h4] at h
                simp only at h
                by_cases hb : boundaryAfterOk r = true
                · rw [if_pos hb] at h
                  injection h with h'
                  injection h' with h1 h2
                  subst h1
                  subst h2
                  obtain ⟨hl, hdig, hs2⟩ := (takeDigitsN_iff 4 s2 d r).mp h4
                  refine ⟨⟨p, d, rfl, hpok, hdig, Or.inr hl⟩, ?_, hb⟩
                  rw [hs, hs2]
                  simp
                · rw [if_neg hb] at h
                  obtain ⟨d3, htok, hdig, hl, hs2, hb3⟩ := tryDigits3_sound p s2 tok rest h
                  refine ⟨⟨p, d3, htok, hpok, hdig, Or.inl hl⟩, ?_, hb3⟩
                  rw [hs, hs2, htok]
                  simp
          · rw [if_neg hc] at h
            cases h

theorem takeDigits4_none_of_len3 (d b : List Char) (hl : d.length = 3)
    (hdig : ∀ c ∈ d, c.isDigit = true) (hb : boundaryAfterOk b = true) :
    takeDigitsN 4 (d ++ b) = none := by
  cases h4 : takeDigitsN 4 (d ++ b) with
  | none => rfl
  | some dr =>
      obtain ⟨d', r'⟩ := dr
      obtain ⟨hl', hdig', hs'⟩ := (takeDigitsN_iff _ _ _ _).mp h4
      rcases List.append_eq_append_iff.mp hs' with ⟨a', hA, hB⟩ | ⟨c', hA, hB⟩
      · have hlen1 : a'.length = 1 := by
          have hx := congrArg List.length hA
          rw [List.length_append, hl', hl] at hx
          omega
        obtain ⟨x, rfl⟩ := List.length_eq_one.mp hlen1
        have hxd : x ∈ d' := by
          rw [hA]
          simp
        have hxdig := hdig' x hxd
        rw [hB] at hb
        simp only [List.singleton_append, boundaryAfterOk, Bool.not_eq_true'] at hb
        rw [isWordChar_of_isDigit hxdig] at hb
        exact Bool.noConfusion hb
      · have hx := congrArg List.length hA
        rw [List.length_append, hl, hl'] at hx
        omega

theorem matchId34_complete (tok b : List Char) (htok : IsIdTok tok)
    (hb : boundaryAfterOk b = true) : matchId34 (tok ++ b) = some (tok, b) := by
  obtain ⟨p, d, rfl, hpok, hdig, hlen⟩ := htok
  have hassoc : (p ++ '-' :: d) ++ b = p ++ ('-' :: (d ++ b)) := by simp
  unfold matchId34
  rw [hassoc, matchAlt_complete p ('-' :: (d ++ b)) hpok]
  rcases hlen with hl3 | hl4
  · have h4 : takeDigitsN 4 (d ++ b) = none :=
      takeDigits4_none_of_len3 d b hl3 hdig hb
    have h3 : takeDigitsN 3 (d ++ b) = some (d, b) :=
      (takeDigitsN_iff _ _ _ _).mpr ⟨hl3, hdig, rfl⟩
    simp [h4, h3, tryDigits3, hb]
  · have h4 : takeDigitsN 4 (d ++ b) = some (d, b) :=
      (takeDigitsN_iff _ _ _ _).mpr ⟨hl4, hdig, rfl⟩
    simp [h4, hb]

theorem matchId34_no_overlap (s tok0 rest a tok b : List Char)
    (hm : matchId34 s = some (tok0, rest))
    (hdec : s = a ++ (tok ++ b)) (ha : a ≠ [])
    (htok : IsIdTok tok)
    (hlast : ∀ c, a.getLast? = some c → isWordChar c = false) :
    ∃ a2, a = tok0 ++ a2 ∧ a2 ≠ [] ∧ rest = a2 ++ (tok ++ b) := by
  obtain ⟨htok0, hs0, hb0⟩ := matchId34_sound s tok0 rest hm
  have hkey : tok0 ++ rest = a ++ (tok ++ b) := by rw [← hs0, ← hdec]
  obtain ⟨p0, d0, htok0eq, hp0, hd0dig, hd0len⟩ := htok0
  have hd0ne : d0 ≠ [] := by
    intro hnil
    rw [hnil] at hd0len
    rcases hd0len with h | h <;> cases h
  have hafull : a ≠ tok0 := by
    intro heq
    have h1 : tok0.getLast? = d0.getLast? := by
      rw [htok0eq, show p0 ++ '-' :: d0 = (p0 ++ ['-']) ++ d0 by simp]
      exact lastElem_append _ _ hd0ne
    obtain ⟨x, hx⟩ : ∃ x, d0.getLast? = some x := by
      rw [List.getLast?_eq_getLast d0 hd0ne]
      exact ⟨_, rfl⟩
    have hxd : x ∈ d0 := lastElem_mem _ _ hx
    have hxe : a.getLast? = some x := by rw [heq, h1, hx]
    have hfalse : (true : Bool) = false :=
      (isWordChar_of_isDigit (hd0dig x hxd)).symm.trans (hlast x hxe)
    exact Bool.noConfusion hfalse
  rcases List.append_eq_append_iff.mp hkey with ⟨a2, hA, hR⟩ | ⟨c2, hA, hR⟩
  · by_cases ha2 : a2 = []
    · subst ha2
      exact absurd (by simpa using hA) hafull
    · exact ⟨a2, hA, ha2, hR⟩
  · by_cases hc2 : c2 = []
    · subst hc2
      exact absurd (by simpa using hA.symm) hafull
    · exfalso
      have hsplit : a ++ c2 = p0 ++ ('-' :: d0) := by rw [← hA, htok0eq]
      obtain ⟨la, hla⟩ : ∃ x, a.getLast? = some x := by
        rw [List.getLast?_eq_getLast a ha]
        exact ⟨_, rfl⟩
      have hlaw := hlast la hla
      rcases List.append_eq_append_iff.mp hsplit with ⟨u, hU, hV⟩ | ⟨u, hU, hV⟩
      · have hmem : la ∈ p0 := by
          rw [hU]
          exact List.mem_append_left u (lastElem_mem a la hla)
        have hword := altOk_word hp0 la hmem
        exact Bool.noConfusion (hword.symm.trans hlaw)
      · cases u with
        | nil =>
            have hap : a = p0 := by simpa using hU
            have hmem : la ∈ p0 := by
              rw [← hap]
              exact lastElem_mem a la hla
            have hword := altOk_word hp0 la hmem
            exact Bool.noConfusion (hword.symm.trans hlaw)
        | cons u0 u2 =>
            rw [List.cons_append] at hV
            injection hV with hV1 hV2
            cases u2 with
            | nil =>
                have hc2d0 : c2 = d0 := by simpa using hV2.symm
                rw [hc2d0] at hR
                obtain ⟨pt, dt, htokeq, hpt, hdt, _⟩ := htok
                obtain ⟨c0, p', hp'eq, hc0⟩ := altOk_head hpt
                cases d0 with
                | nil => exact hd0ne rfl
                | cons d00 d0t =>
                    rw [htokeq, hp'eq] at hR
                    simp only [List.cons_append, List.append_assoc] at hR
                    injection hR with hh1 _
                    have hd00 : d00.isDigit = true :=
                      hd0dig d00 (List.mem_cons_self _ _)
                    rw [← hh1] at hd00
                    rw [hc0] at hd00
                    exact Bool.noConfusion hd00
            | cons u1 u3 =>
                have hu2ne : (u1 :: u3) ≠ ([] : List Char) := by simp
                have hlast_a : a.getLast? = (u1 :: u3).getLast? := by
                  rw [hU, ← hV1,
                    show p0 ++ '-' :: u1 :: u3 = (p0 ++ ['-']) ++ (u1 :: u3) by simp]
                  exact lastElem_append _ _ hu2ne
                obtain ⟨x, hx⟩ : ∃ x, (u1 :: u3).getLast? = some x := by
                  rw [List.getLast?_eq_getLast _ hu2ne]
                  exact ⟨_, rfl⟩
                have hxmem : x ∈ d0 := by
                  rw [hV2]
                  exact List.mem_append_left c2 (lastElem_mem _ x hx)
                have hxdig := hd0dig x hxmem
                have hxe : a.getLast? = some x := by rw [hlast_a, hx]
                have hfalse : (true : Bool) = false :=
                  (isWordChar_of_isDigit hxdig).symm.trans (hlast x hxe)
                exact Bool.noConfusion hfalse

theorem scanAux34_mem : ∀ (fuel : Nat) (s : List Char) (pw : Bool) (tok : List Char),
    s.length ≤ fuel →
    (tok ∈ scanAux34 fuel s pw ↔
      ∃ a b, s = a ++ (tok ++ b) ∧ IsIdTok tok ∧ PrevOk pw a ∧ NonWordHead b) := by
  intro fuel
  induction fuel with
  | zero =>
      intro s pw tok hle
      have hs : s = [] := List.length_eq_zero.mp (Nat.le_zero.mp hle)
      subst hs
      constructor
      · intro h
        simp [scanAux34] at h
      · rintro ⟨a, b, heq, ⟨p, d, rfl, hp, hdig, hlen⟩, -, -⟩
        have hlen0 := congrArg List.length heq
        simp [List.length_append] at hlen0
        omega
  | succ fuel ih =>
      intro s pw tok hle
      cases s with
      | nil =>
          constructor
          · intro h
            simp [scanAux34] at h
          · rintro ⟨a, b, heq, ⟨p, d, rfl, hp, hdig, hlen⟩, -, -⟩
            have hlen0 := congrArg List.length heq
            simp [List.length_append] at hlen0
            omega
      | cons c cs =>
          have hlen' : cs.length ≤ fuel := by
            simp at hle
            omega
          cases pw with
          | true =>
              rw [show scanAux34 (fuel + 1) (c :: cs) true
                    = scanAux34 fuel cs (isWordChar c) from by simp [scanAux34]]
              rw [ih cs (isWordChar c) tok hlen']
              constructor
              · rintro ⟨a', b, heq, htok, hprev, hnb⟩
                exact ⟨c :: a', b, by rw [List.cons_append, heq], htok,
                  (PrevOk_cons c a' true).mpr hprev, hnb⟩
              · rintro ⟨a, b, heq, htok, hprev, hnb⟩
                cases a with
                | nil => exact absurd (hprev.1 rfl) (by simp)
                | cons a0 a' =>
                    rw [List.cons_append] at heq
                    injection heq with h1 h2
                    subst h1
                    exact ⟨a', b, h2, htok, (PrevOk_cons c a' true).mp hprev, hnb⟩
          | false =>
              cases hm : matchId34 (c :: cs) with
              | none =>
                  rw [show scanAux34 (fuel + 1) (c :: cs) false
                        = scanAux34 fuel cs (isWordChar c) from by simp [scanAux34, hm]]
                  rw [ih cs (isWordChar c) tok hlen']
                  constructor
                  · rintro ⟨a', b, heq, htok, hprev, hnb⟩
                    exact ⟨c :: a', b, by rw [List.cons_append, heq], htok,
                      (PrevOk_cons c a' false).mpr hprev, hnb⟩
                  · rintro ⟨a, b, heq, htok, hprev, hnb⟩
                    cases a with
                    | nil =>
                        exfalso
                        have hcomp := matchId34_complete tok b htok
                          ((boundaryAfterOk_iff b).mpr hnb)
                        rw [show tok ++ b = c :: cs from by simpa using heq.symm] at hcomp
                        rw [hm] at hcomp
                        cases hcomp
                    | cons a0 a' =>
                        rw [List.cons_append] at heq
                        injection heq with h1 h2
                        subst h1
                        exact ⟨a', b, h2, htok, (PrevOk_cons c a' false).mp hprev, hnb⟩
              | some tr =>
                  obtain ⟨tok0, rest⟩ := tr
                  obtain ⟨htok0, hs0, hb0⟩ := matchId34_sound _ _ _ hm
                  have htok0ne : tok0 ≠ [] := by
                    obtain ⟨p, d, rfl, -, -, -⟩ := htok0
                    simp
                  have hrl : rest.length ≤ fuel := by
                    have h1 := congrArg List.length hs0
                    simp [List.length_append] at h1
                    have h2 : 0 < tok0.length := List.length_pos.mpr htok0ne
                    omega
                  rw [show scanAux34 (fuel + 1) (c :: cs) false
                        = tok0 :: scanAux34 fuel rest true from by simp [scanAux34, hm]]
                  rw [List.mem_cons, ih rest true tok hrl]
                  constructor
                  · rintro (rfl | ⟨a', b, heq, htok, hprev, hnb⟩)
                    · exact ⟨[], rest, by simpa using hs0, htok0,
                        ⟨fun _ => rfl, fun x hx => by simp at hx⟩,
                        (boundaryAfterOk_iff rest).mp hb0⟩
                    · have ha' : a' ≠ [] := fun hnil => by
                        exact absurd (hprev.1 hnil) (by simp)
                      refine ⟨tok0 ++ a', b, ?_, htok, ⟨fun _ => rfl, ?_⟩, hnb⟩
                      · rw [hs0, heq]
                        simp
                      · intro x hx
                        refine hprev.2 x ?_
                        rw [lastElem_append tok0 a' ha'] at hx
                        exact hx
                  · rintro ⟨a, b, heq, htok, hprev, hnb⟩
                    by_cases ha : a = []
                    · subst ha
                      left
                      have hcomp := matchId34_complete tok b htok
                        ((boundaryAfterOk_iff b).mpr hnb)
                      rw [show tok ++ b = c :: cs from by simpa using heq.symm] at hcomp
                      rw [hm] at hcomp
                      injection hcomp with h12
                      injection h12 with h1 h2
                      exact h1.symm
                    · right
                      obtain ⟨a2, hA, ha2, hR⟩ :=
                        matchId34_no_overlap (c :: cs) tok0 rest a tok b
                          hm heq ha htok hprev.2
                      refine ⟨a2, b, hR, htok, ⟨fun h => absurd h ha2, ?_⟩, hnb⟩
                      intro x hx
                      refine hprev.2 x ?_
                      rw [hA, lastElem_append tok0 a2 ha2]
                      exact hx

/-- C1 (amended): for the `\b(?:ESS|NMS|DOPS)-\d{3,4}\b` variants
(`parse_jira_titles.extract_jira_ids_from_file`, and the processor), extraction
returns exactly the word-bounded occurrences of `PREFIX-<3 or 4 digits>` with
PREFIX in `{ESS, NMS, DOPS}`: a token is in the output iff the text splits as
`a ++ tok ++ b` where `tok` has that shape, `a` does not end in a word
character and `b` does not start with one.  On the concrete input
"See ESS-1234 and NMS-12 and XXX-111" the result is exactly `["ESS-1234"]`.
The original claim fails for the simplest variant
(`extract_jira_titles.extract_jira_ids`): see the counterexample theorem. -/
theorem claim_c1_amended :
    (∀ (text : String) (tok : List Char),
      String.mk tok ∈ extract_jira_ids_from_text text ↔
        ∃ a b, text.data = a ++ (tok ++ b) ∧ IsIdTok tok ∧
          (∀ c, a.getLast? = some c → isWordChar c = false) ∧
          (∀ c, b.head? = some c → isWordChar c = false))
    ∧ extract_jira_ids_from_text "See ESS-1234 and NMS-12 and XXX-111" = ["ESS-1234"] := by
  constructor
  · intro text tok
    unfold extract_jira_ids_from_text
    rw [List.mem_map]
    constructor
    · rintro ⟨l, hl, hEq⟩
      injection hEq with h
      subst h
      obtain ⟨a, b, h1, h2, h3, h4⟩ := (scanAux34_mem _ _ _ _ le_rfl).mp hl
      exact ⟨a, b, h1, h2, h3.2, h4⟩
    · rintro ⟨a, b, h1, h2, h3, h4⟩
      refine ⟨tok, ?_, rfl⟩
      exact (scanAux34_mem _ _ _ _ le_rfl).mpr ⟨a, b, h1, h2, ⟨fun _ => rfl, h3⟩, h4⟩
  · decide

/-- C1 counterexample: the simplest variant
(`extract_jira_titles.extract_jira_ids`, regex `\b(ESS|NMS)-\d+\b` with a
capturing group around the prefix alternation and `\d+` digits) does NOT
return the word-bounded `PREFIX-<3 or 4 digits>` substrings: on
"See ESS-1234 and NMS-12 and XXX-111" it returns `["ESS", "NMS"]`
(`re.findall` yields the captured group, and "NMS-12" with 2 digits matches
`\d+`), and in particular "ESS-1234" is not in the output. -/
theorem claim_c1_counterexample :
    ExtractJiraTitles.extract_jira_ids "See ESS-1234 and NMS-12 and XXX-111"
      = ["ESS", "NMS"]
    ∧ "ESS-1234" ∉
      ExtractJiraTitles.extract_jira_ids "See ESS-1234 and NMS-12 and XXX-111" := by
  constructor
  · decide
  · decide
